import Mathlib

/-!
Verification development for the SemiRoute PCB routing backend.

The Python sources under `backend/routing/` are shallowly embedded below.
Conventions used throughout the embedding:

* Python floats are modelled as rationals (`ℚ`).  Comparisons of the form
  `sqrt e > t` that occur in the source are embedded in the equivalent
  squared form `e > t^2` (both sides of every such comparison are
  non-negative, so the two forms agree over the reals).
* Where the source computes an irrational value that is then used as data
  (not merely compared), a fixed rational stand-in is used: `SQRT2` is the
  rational value of the Python float `math.sqrt(2)`, and `ratSqrt` is a
  deterministic rational square-root approximation that is exact on
  perfect squares of rationals.  No theorem below depends on the
  approximation error of these stand-ins.
* Python dicts are modelled as association lists with overwrite-on-insert,
  Python sets of grid cells as `Finset (ℤ × ℤ)` or lists, and Python
  object identity (`id(...)`) as an explicit numeric tag allocated from a
  counter.
* `round` is Python's banker's rounding (`pyRound`), `int(...)` is
  truncation toward zero (`pyTrunc`).
-/

namespace SemiRoute

/-- Python `round`: round half to even. -/
def pyRound (q : ℚ) : ℤ :=
  let f : ℤ := ⌊q⌋
  let r : ℚ := q - f
  if r < 1/2 then f
  else if r > 1/2 then f + 1
  else if f % 2 = 0 then f else f + 1

/-- Python `int(...)` on a float: truncation toward zero. -/
def pyTrunc (q : ℚ) : ℤ :=
  if 0 ≤ q then ⌊q⌋ else ⌈q⌉

/-- Python `range(a, b)` over integers. -/
def rangeZ (a b : ℤ) : List ℤ :=
  (List.range (b - a).toNat).map (fun i => a + (i : ℤ))

/-- Deterministic rational square-root stand-in; exact on squares of
naturals scaled by the denominator (in particular on perfect squares). -/
def ratSqrt (q : ℚ) : ℚ :=
  if q ≤ 0 then 0 else (Nat.sqrt (q.num.toNat * q.den) : ℚ) / (q.den : ℚ)

/-- Rational value of the Python float `math.sqrt(2)`. -/
def SQRT2 : ℚ := 14142135623730951 / 10^16

/-- Association-list lookup (first match), mirroring Python dict lookup. -/
def lookupA {K V : Type} [DecidableEq K] : List (K × V) → K → Option V
  | [], _ => none
  | (k, v) :: rest, key => if k = key then some v else lookupA rest key

/-- Association-list insert with overwrite, preserving insertion order
(mirrors `d[k] = v` on a Python dict). -/
def insertA {K V : Type} [DecidableEq K] : List (K × V) → K → V → List (K × V)
  | [], key, val => [(key, val)]
  | (k, v) :: rest, key, val =>
      if k = key then (key, val) :: rest else (k, v) :: insertA rest key val

/-- Association-list erase (mirrors `d.pop(k, None)` discarding the value). -/
def eraseA {K V : Type} [DecidableEq K] : List (K × V) → K → List (K × V)
  | [], _ => []
  | (k, v) :: rest, key => if k = key then rest else (k, v) :: eraseA rest key

/-- Minimum of a list of rationals (Python `min` over a non-empty sequence;
returns 0 on the empty list, which the source never passes). -/
def listMin : List ℚ → ℚ
  | [] => 0
  | x :: xs => xs.foldl min x

/-- Maximum of a list of rationals. -/
def listMax : List ℚ → ℚ
  | [] => 0
  | x :: xs => xs.foldl max x

/-! ## `backend/routing/pending.py` — the pending trace store -/

/-- `PendingTrace` dataclass. -/
structure PendingTrace where
  id : String
  segments : List (ℚ × ℚ)
  width : ℚ
  layer : String
  netId : Option ℤ
deriving Repr, DecidableEq

/-- `PendingTraceStore` state: the `_traces` dict and the per-layer
`_blocked_cells_cache`. -/
structure PendingTraceStore where
  traces : List (String × PendingTrace)
  gridResolution : ℚ
  blockedCellsCache : List (String × Finset (ℤ × ℤ))
deriving DecidableEq

/-- `PendingTraceStore.__init__`. -/
def PendingTraceStore.init (gridResolution : ℚ) : PendingTraceStore :=
  { traces := [], gridResolution := gridResolution, blockedCellsCache := [] }

/-- `PendingTraceStore.add_trace`. -/
def add_trace (s : PendingTraceStore) (traceId : String)
    (segments : List (ℚ × ℚ)) (width : ℚ) (layer : String)
    (netId : Option ℤ) : PendingTraceStore :=
  let trace : PendingTrace :=
    { id := traceId, segments := segments, width := width,
      layer := layer, netId := netId }
  { s with
    traces := insertA s.traces traceId trace
    blockedCellsCache := eraseA s.blockedCellsCache layer }

/-- `PendingTraceStore.remove_trace`: returns the boolean result and the
updated store. -/
def remove_trace (s : PendingTraceStore) (traceId : String) :
    Bool × PendingTraceStore :=
  match lookupA s.traces traceId with
  | none => (false, s)
  | some trace =>
      (true,
       { s with
         traces := eraseA s.traces traceId
         blockedCellsCache := eraseA s.blockedCellsCache trace.layer })

/-- `PendingTraceStore.clear`. -/
def clearStore (s : PendingTraceStore) : PendingTraceStore :=
  { s with traces := [], blockedCellsCache := [] }

/-- Cells occupied by one trace of the store, as computed by the sampling
loops inside `get_blocked_cells`. -/
def traceBlockedCells (resolution clearance : ℚ) (trace : PendingTrace) :
    Finset (ℤ × ℤ) :=
  let toGrid : ℚ → ℚ → ℤ × ℤ := fun x y =>
    (pyRound (x / resolution), pyRound (y / resolution))
  if trace.segments.length < 2 then ∅
  else
    let traceRadius := trace.width / 2 + clearance
    let cellRadius : ℤ := pyTrunc (traceRadius / resolution) + 1
    let segPairs := trace.segments.zip trace.segments.tail
    segPairs.foldl (fun acc seg =>
      let x1 := seg.1.1; let y1 := seg.1.2
      let x2 := seg.2.1; let y2 := seg.2.2
      -- length < 0.001 compared in squared form
      let lengthSq := (x2 - x1)^2 + (y2 - y1)^2
      if lengthSq < (1/1000)^2 then
        let g := toGrid x1 y1
        acc ∪ ((rangeZ (-cellRadius) (cellRadius + 1)).foldl (fun a dx =>
          (rangeZ (-cellRadius) (cellRadius + 1)).foldl (fun b dy =>
            insert (g.1 + dx, g.2 + dy) b) a) ∅)
      else
        let length := ratSqrt lengthSq
        let steps : ℤ := max (pyTrunc (length / resolution)) 1
        acc ∪ ((rangeZ 0 (steps + 1)).foldl (fun a step =>
          let t : ℚ := (step : ℚ) / (steps : ℚ)
          let px := x1 + t * (x2 - x1)
          let py := y1 + t * (y2 - y1)
          let g := toGrid px py
          (rangeZ (-cellRadius) (cellRadius + 1)).foldl (fun a2 dx =>
            (rangeZ (-cellRadius) (cellRadius + 1)).foldl (fun b dy =>
              insert (g.1 + dx, g.2 + dy) b) a2) a) ∅)) ∅

/-- `PendingTraceStore.get_blocked_cells` with `exclude_net_id=None`:
returns the blocked-cell set together with the store (whose cache may have
been updated). -/
def get_blocked_cells (s : PendingTraceStore) (layer : String)
    (clearance : ℚ) : Finset (ℤ × ℤ) × PendingTraceStore :=
  match lookupA s.blockedCellsCache layer with
  | some cached => (cached, s)
  | none =>
      let cells := s.traces.foldl (fun acc kv =>
        if kv.2.layer ≠ layer then acc
        else acc ∪ traceBlockedCells s.gridResolution clearance kv.2) ∅
      (cells, { s with blockedCellsCache := insertA s.blockedCellsCache layer cells })

/-! ## `backend/routing/router.py` constructibility (claim C10)

The facade's module-level imports and its `__init__` call are modelled as
finite name sets, together with the top-level classes actually defined by
`obstacles.py` and the parameters of `PendingTraceStore.__init__`. -/

/-- Top-level classes defined in `backend/routing/obstacles.py`. -/
def obstaclesModuleClasses : List String := ["ObstacleMap"]

/-- Names that `router.py` line 7 imports from `.obstacles`. -/
def routerObstaclesImports : List String := ["ObstacleMap", "ElementAwareMap"]

/-- Parameters of `PendingTraceStore.__init__` (besides `self`); the
signature has no `**kwargs`. -/
def pendingStoreInitParams : List String := ["grid_resolution"]

/-- Keyword arguments that `TraceRouter.__init__` passes to
`PendingTraceStore(...)`. -/
def traceRouterPendingStoreKwargs : List String :=
  ["grid_resolution", "storage_path"]

/-- A Python `from M import a, b` succeeds iff every imported name is
defined in M; a call with keyword arguments succeeds only if every keyword
matches a parameter. `TraceRouter` is constructible only if the
module-level imports of `router.py` succeed and the `PendingTraceStore` call in
`TraceRouter.__init__` is well-formed. -/
def traceRouterConstructible : Bool :=
  routerObstaclesImports.all (fun n => obstaclesModuleClasses.contains n) &&
  traceRouterPendingStoreKwargs.all (fun n => pendingStoreInitParams.contains n)

/-! ## `backend/routing/hulls.py` — geometry -/

/-- `Point` dataclass: 2D point over the rationals. -/
structure Point where
  x : ℚ
  y : ℚ
deriving Repr, DecidableEq

instance : Add Point := ⟨fun a b => ⟨a.x + b.x, a.y + b.y⟩⟩

instance : Sub Point := ⟨fun a b => ⟨a.x - b.x, a.y - b.y⟩⟩

/-- `Point.__mul__` (scalar on the right). -/
def Point.scale (p : Point) (s : ℚ) : Point := ⟨p.x * s, p.y * s⟩

/-- `Point.dot`. -/
def Point.dot (a b : Point) : ℚ := a.x * b.x + a.y * b.y

/-- `Point.cross` (z-component of the 2D cross product). -/
def Point.cross (a b : Point) : ℚ := a.x * b.y - a.y * b.x

/-- `Point.length_sq`. -/
def Point.lengthSq (p : Point) : ℚ := p.x * p.x + p.y * p.y

/-- `Point.length` (via the rational square-root stand-in). -/
def Point.length (p : Point) : ℚ := ratSqrt p.lengthSq

/-- `Point.normalized`; the zero guard `length < 1e-10` is taken in the
equivalent squared form. -/
def Point.normalized (p : Point) : Point :=
  let ln := p.length
  if p.lengthSq < (1/10^10)^2 then ⟨0, 0⟩ else ⟨p.x / ln, p.y / ln⟩

/-- `Point.perpendicular`: 90 degrees counter-clockwise. -/
def Point.perpendicular (p : Point) : Point := ⟨-p.y, p.x⟩

/-- Squared distance between two points (`distance_to` squared; distance
comparisons in the source are embedded in squared form). -/
def Point.distSq (a b : Point) : ℚ := (a - b).lengthSq

/-- `Point.distance_to` (via the rational square-root stand-in). -/
def Point.distanceTo (a b : Point) : ℚ := (a - b).length

/-- `LineChain`: closed CCW polyline. -/
structure LineChain where
  points : List Point
  netId : ℤ := 0
deriving Repr, DecidableEq

/-- Indexing helper: `points[i % n]` with a default for the empty chain
(the source never constructs an empty chain). -/
def LineChain.pt (c : LineChain) (i : ℤ) : Point :=
  c.points.getD (i % (c.points.length : ℤ)).toNat ⟨0, 0⟩

/-- `LineChain.get_edge`. -/
def LineChain.getEdge (c : LineChain) (i : ℤ) : Point × Point :=
  (c.pt i, c.pt (i + 1))

/-- `LineChain.edges`: all edges `(points[i], points[(i+1) % n])`. -/
def LineChain.edges (c : LineChain) : List (Point × Point) :=
  (List.range c.points.length).map (fun i => c.getEdge i)

/-- `LineChain.point_inside`: ray casting.  The source guard
`(pi.y > p.y) != (pj.y > p.y)` guarantees `pj.y ≠ pi.y` at the division. -/
def LineChain.pointInside (c : LineChain) (p : Point) : Bool :=
  let n := c.points.length
  if n < 3 then false
  else
    (List.range n).foldl (fun inside i =>
      let pi := c.pt i
      let pj := c.pt ((i : ℤ) + (n : ℤ) - 1)
      if (decide (pi.y > p.y) != decide (pj.y > p.y)) &&
         decide (p.x < (pj.x - pi.x) * (p.y - pi.y) / (pj.y - pi.y) + pi.x) then
        !inside
      else inside) false

/-- `segment_segment_intersection` with `epsilon = 1e-10`. -/
def segment_segment_intersection (p1 p2 p3 p4 : Point) : Option Point :=
  let d1 := p2 - p1
  let d2 := p4 - p3
  let d3 := p3 - p1
  let cross := d1.cross d2
  if |cross| < 1/10^10 then none
  else
    let t := d3.cross d2 / cross
    let u := d3.cross d1 / cross
    if 0 ≤ t ∧ t ≤ 1 ∧ 0 ≤ u ∧ u ≤ 1 then some (p1 + d1.scale t)
    else none

/-- Stable insertion of `x` into a list sorted by `key` (equal keys keep
their original relative order, as Python's stable sort does). -/
def insertByKey {α : Type} (key : α → ℚ) (x : α) : List α → List α
  | [] => [x]
  | y :: ys => if key x < key y then x :: y :: ys else y :: insertByKey key x ys

/-- Stable sort by a rational key, modelling Python's `list.sort(key=...)`. -/
def sortByKey {α : Type} (key : α → ℚ) (l : List α) : List α :=
  l.foldl (fun acc x => insertByKey key x acc) []

/-- `LineChain.intersects_segment`: all intersections with the hull edges,
sorted by squared distance from `p1`. -/
def LineChain.intersectsSegment (c : LineChain) (p1 p2 : Point) :
    List (Point × ℤ) :=
  let hits := (List.range c.points.length).filterMap (fun i =>
    match segment_segment_intersection p1 p2 (c.getEdge i).1 (c.getEdge i).2 with
    | some pt => some (pt, i)
    | none => none)
  sortByKey (fun h => (h.1 - p1).lengthSq) hits

/-- `closest_point_on_segment`. -/
def closest_point_on_segment (p a b : Point) : Point × ℚ :=
  let ab := b - a
  let lengthSq := ab.lengthSq
  if lengthSq < 1/10^10 then (a, 0)
  else
    let t := (p - a).dot ab / lengthSq
    let t := max 0 (min 1 t)
    (a + ab.scale t, t)

/-- `point_to_segment_distance` (via the rational square-root stand-in). -/
def point_to_segment_distance (p a b : Point) : ℚ :=
  p.distanceTo (closest_point_on_segment p a b).1

/-! Trigonometry stand-ins.  The hull generators evaluate `cos`/`sin` at
multiples of pi/4 (capsule end caps) and at the pad rotation angle.  The
values at multiples of pi/4 are embedded exactly, with `C45` the rational
value of the Python float `cos(pi/4)`.  Pad rotation angles are embedded
exactly for multiples of 90 degrees — the only rotated-pad angles any
claim exercises; other angles fall back to the identity rotation and are
outside the scope of every theorem below. -/

/-- Rational value of the Python float `math.cos(math.pi/4)`. -/
def C45 : ℚ := 7071067811865476 / 10^16

/-- `cos` at `k * pi/4`. -/
def cosPi4 (k : ℤ) : ℚ :=
  match (k % 8).toNat with
  | 0 => 1 | 1 => C45 | 2 => 0 | 3 => -C45 | 4 => -1 | 5 => -C45 | 6 => 0
  | _ => C45

/-- `sin` at `k * pi/4`. -/
def sinPi4 (k : ℤ) : ℚ :=
  match (k % 8).toNat with
  | 0 => 0 | 1 => C45 | 2 => 1 | 3 => C45 | 4 => 0 | 5 => -C45 | 6 => -1
  | _ => -C45

/-- `cos(radians(d))` for `d` a multiple of 90 degrees (identity fallback
otherwise, unused by every claim). -/
def cosDeg (d : ℚ) : ℚ :=
  if d.den = 1 ∧ d.num % 90 = 0 then
    match ((d.num / 90) % 4).toNat with
    | 0 => 1 | 1 => 0 | 2 => -1 | _ => 0
  else 1

/-- `sin(radians(d))` for `d` a multiple of 90 degrees (identity fallback
otherwise, unused by every claim). -/
def sinDeg (d : ℚ) : ℚ :=
  if d.den = 1 ∧ d.num % 90 = 0 then
    match ((d.num / 90) % 4).toNat with
    | 0 => 0 | 1 => 1 | 2 => 0 | _ => -1
  else 0

/-- `HullGenerator.octagonal_hull`. -/
def octagonal_hull (center : Point) (halfWidth halfHeight clearance : ℚ)
    (chamferRat : ℚ := 3/10) : LineChain :=
  let hw := halfWidth + clearance
  let hh := halfHeight + clearance
  let chamfer := min hw hh * min chamferRat (1/2)
  let cx := center.x
  let cy := center.y
  { points :=
      [⟨cx - hw + chamfer, cy - hh⟩,
       ⟨cx + hw - chamfer, cy - hh⟩,
       ⟨cx + hw, cy - hh + chamfer⟩,
       ⟨cx + hw, cy + hh - chamfer⟩,
       ⟨cx + hw - chamfer, cy + hh⟩,
       ⟨cx - hw + chamfer, cy + hh⟩,
       ⟨cx - hw, cy + hh - chamfer⟩,
       ⟨cx - hw, cy - hh + chamfer⟩] }

/-- `HullGenerator.circular_hull` with the default 16 segments: vertices at
angles `2 pi i / 16 = i * pi/4 / 2`; embedded through the pi/8 grid. -/
def cosPi8 (k : ℤ) : ℚ :=
  match (k % 16).toNat with
  | 0 => 1 | 1 => 9238795325112867 / 10^16 | 2 => C45
  | 3 => 3826834323650898 / 10^16 | 4 => 0 | 5 => -(3826834323650898 / 10^16)
  | 6 => -C45 | 7 => -(9238795325112867 / 10^16) | 8 => -1
  | 9 => -(9238795325112867 / 10^16) | 10 => -C45
  | 11 => -(3826834323650898 / 10^16) | 12 => 0
  | 13 => 3826834323650898 / 10^16 | 14 => C45
  | _ => 9238795325112867 / 10^16

/-- `sin` at `k * pi/8`. -/
def sinPi8 (k : ℤ) : ℚ := cosPi8 (k - 4)

/-- `HullGenerator.circular_hull` (16 segments). -/
def circular_hull (center : Point) (radius clearance : ℚ) : LineChain :=
  let r := radius + clearance
  { points := (List.range 16).map (fun i =>
      ⟨center.x + r * cosPi8 i, center.y + r * sinPi8 i⟩) }

/-- `HullGenerator.segment_hull` with the default 4 cap segments.  The end
cap evaluates `cos`/`sin` at `pi/2 - pi*i/4 = (2 - i) * pi/4`, the start
cap at `(-2 - i) * pi/4`. -/
def segment_hull (start e : Point) (width clearance : ℚ) : LineChain :=
  let halfWidth := width / 2 + clearance
  let direction := e - start
  if direction.lengthSq < (1/10^10)^2 then
    circular_hull start (width / 2) clearance
  else
    let dirNorm := direction.normalized
    let perp := dirNorm.perpendicular
    let sideL := [start + perp.scale halfWidth, e + perp.scale halfWidth]
    let endCap := (List.range 4).map (fun j =>
      let i : ℤ := j + 1
      e + dirNorm.scale (halfWidth * cosPi4 (2 - i)) +
        perp.scale (halfWidth * sinPi4 (2 - i)))
    let sideR := [start - perp.scale halfWidth]
    let startCap := (List.range 4).map (fun j =>
      let i : ℤ := j + 1
      start + dirNorm.scale (halfWidth * cosPi4 (-2 - i)) +
        perp.scale (halfWidth * sinPi4 (-2 - i)))
    let pts := sideL ++ endCap ++ sideR ++ startCap
    -- drop the closing duplicate (|dx| < 1e-10 and |dy| < 1e-10)
    let pts :=
      match pts with
      | [] => pts
      | p0 :: _ =>
          match pts.getLast? with
          | some plast =>
              if |plast.x - p0.x| < 1/10^10 ∧ |plast.y - p0.y| < 1/10^10 then
                pts.dropLast
              else pts
          | none => pts
    { points := pts.reverse }

/-- `HullGenerator.rotated_rect_hull`. -/
def rotated_rect_hull (center : Point) (halfWidth halfHeight angleDeg clearance : ℚ) :
    LineChain :=
  let hull := octagonal_hull ⟨0, 0⟩ halfWidth halfHeight clearance
  let cosA := cosDeg angleDeg
  let sinA := sinDeg angleDeg
  { points := hull.points.map (fun p =>
      ⟨p.x * cosA - p.y * sinA + center.x,
       p.x * sinA + p.y * cosA + center.y⟩) }

/-- `HullGenerator.via_hull`. -/
def via_hull (center : Point) (size clearance : ℚ) : LineChain :=
  circular_hull center (size / 2) clearance

/-! ## `backend/routing/hull_map.py` -/

/-- `IndexedHull`: hull with precomputed bounding box.  `hid` models CPython
object identity (`id(...)`), allocated from the map's counter; the debug
`source` field is omitted. -/
structure IndexedHull where
  hull : LineChain
  netId : ℤ
  minX : ℚ
  maxX : ℚ
  minY : ℚ
  maxY : ℚ
  sourceType : String
  hid : ℕ
deriving Repr, DecidableEq

/-- `HullMap` state: the spatial grid is modelled as a function from cell
to the per-cell hull list (appends preserve order, as in the source). -/
structure HullMap where
  clearance : ℚ
  traceClearance : ℚ
  cellSize : ℚ
  grid : (ℤ × ℤ) → List IndexedHull
  hulls : List IndexedHull
  pendingHulls : List IndexedHull
  nextId : ℕ

/-- `HullMap._cell_coords`. -/
def cellCoords (cellSize : ℚ) (x y : ℚ) : ℤ × ℤ :=
  (⌊x * (1 / cellSize)⌋, ⌊y * (1 / cellSize)⌋)

/-- Does the bbox cell range of hull `h` (as in `_add_to_grid`) cover grid
cell `c`? -/
def hullCoversCell (cellSize : ℚ) (h : IndexedHull) (c : ℤ × ℤ) : Bool :=
  let minCell := cellCoords cellSize h.minX h.minY
  let maxCell := cellCoords cellSize h.maxX h.maxY
  minCell.1 ≤ c.1 && c.1 ≤ maxCell.1 && minCell.2 ≤ c.2 && c.2 ≤ maxCell.2

/-- `HullMap._add_to_grid`: append the hull to every cell in its bbox
range. -/
def addToGrid (cellSize : ℚ) (g : (ℤ × ℤ) → List IndexedHull)
    (h : IndexedHull) : (ℤ × ℤ) → List IndexedHull :=
  fun c => if hullCoversCell cellSize h c then g c ++ [h] else g c

/-- The grid obtained by inserting a hull list in order into an empty grid
(this is what `clear_pending_hulls` rebuilds). -/
def buildGrid (cellSize : ℚ) (hulls : List IndexedHull) :
    (ℤ × ℤ) → List IndexedHull :=
  hulls.foldl (addToGrid cellSize) (fun _ => [])

/-- `HullMap.query_segment` (materialised; the source is a generator).
Iterates cells row-major, de-duplicates by object identity, skips same-net
hulls, and keeps hulls whose bbox overlaps the expanded query bbox. -/
def query_segment (m : HullMap) (s e : Point) (traceWidth : ℚ)
    (netId : Option ℤ) : List IndexedHull :=
  let halfWidth := traceWidth / 2
  let minX := min s.x e.x - halfWidth
  let maxX := max s.x e.x + halfWidth
  let minY := min s.y e.y - halfWidth
  let maxY := max s.y e.y + halfWidth
  let minCell := cellCoords m.cellSize minX minY
  let maxCell := cellCoords m.cellSize maxX maxY
  let step := fun (acc : List ℕ × List IndexedHull) (h : IndexedHull) =>
    let (seen, out) := acc
    if seen.contains h.hid then acc
    else
      let seen := h.hid :: seen
      if netId.any (fun n => h.netId = n) then (seen, out)
      else if h.minX ≤ maxX && h.maxX ≥ minX && h.minY ≤ maxY && h.maxY ≥ minY
      then (seen, out ++ [h])
      else (seen, out)
  ((rangeZ minCell.1 (maxCell.1 + 1)).foldl (fun acc cx =>
    (rangeZ minCell.2 (maxCell.2 + 1)).foldl (fun acc2 cy =>
      (m.grid (cx, cy)).foldl step acc2) acc) ([], [])).2

/-- `HullMap.query_point` (materialised generator). -/
def query_point (m : HullMap) (p : Point) (radius : ℚ)
    (netId : Option ℤ) : List IndexedHull :=
  let minX := p.x - radius
  let maxX := p.x + radius
  let minY := p.y - radius
  let maxY := p.y + radius
  let minCell := cellCoords m.cellSize minX minY
  let maxCell := cellCoords m.cellSize maxX maxY
  let step := fun (acc : List ℕ × List IndexedHull) (h : IndexedHull) =>
    let (seen, out) := acc
    if seen.contains h.hid then acc
    else
      let seen := h.hid :: seen
      if netId.any (fun n => h.netId = n) then (seen, out)
      else if h.minX ≤ maxX && h.maxX ≥ minX && h.minY ≤ maxY && h.maxY ≥ minY
      then (seen, out ++ [h])
      else (seen, out)
  ((rangeZ minCell.1 (maxCell.1 + 1)).foldl (fun acc cx =>
    (rangeZ minCell.2 (maxCell.2 + 1)).foldl (fun acc2 cy =>
      (m.grid (cx, cy)).foldl step acc2) acc) ([], [])).2

/-- `HullMap.get_blocking_hulls`: hulls whose boundary the centre segment
actually crosses, with first intersection point and edge index, sorted by
squared distance from `start`. -/
def get_blocking_hulls (m : HullMap) (s e : Point) (traceWidth : ℚ)
    (netId : Option ℤ) : List (IndexedHull × Point × ℤ) :=
  let blocking := (query_segment m s e traceWidth netId).foldl
    (fun acc h =>
      match h.hull.intersectsSegment s e with
      | [] => acc
      | (pt, edgeIdx) :: _ =>
          acc ++ [(h, pt, edgeIdx, (pt.x - s.x)^2 + (pt.y - s.y)^2)])
    []
  (sortByKey (fun b => b.2.2.2) blocking).map (fun b => (b.1, b.2.1, b.2.2.1))

/-- `HullMap.point_inside_any_hull`. -/
def point_inside_any_hull (m : HullMap) (p : Point) (netId : Option ℤ) :
    Option IndexedHull :=
  (query_point m p (1/10) netId).find? (fun h => h.hull.pointInside p)

/-- `PadInfo` fields used by `_create_pad_hull`. -/
structure PadInfo where
  x : ℚ
  y : ℚ
  width : ℚ
  height : ℚ
  angle : ℚ
  shape : String
  netId : ℤ
deriving Repr, DecidableEq

/-- Python float `%` for a positive modulus. -/
def qmod (a b : ℚ) : ℚ := a - b * ⌊a / b⌋

/-- `HullMap._create_pad_hull`: returns the hull chain together with its
axis-aligned bounding box `(min_x, max_x, min_y, max_y)`. -/
def create_pad_hull (clearance : ℚ) (pad : PadInfo) :
    LineChain × ℚ × ℚ × ℚ × ℚ :=
  let center : Point := ⟨pad.x, pad.y⟩
  let angleMod := qmod |pad.angle| 180
  let swapDims := 45 < angleMod ∧ angleMod < 135
  let effWidth := if swapDims then pad.height else pad.width
  let effHeight := if swapDims then pad.width else pad.height
  let halfW := effWidth / 2
  let halfH := effHeight / 2
  let chain :=
    if pad.shape = "circle" then
      circular_hull center (min halfW halfH) clearance
    else if pad.shape = "oval" then
      if effWidth > effHeight then
        let offset := (effWidth - effHeight) / 2
        segment_hull ⟨center.x - offset, center.y⟩ ⟨center.x + offset, center.y⟩
          effHeight clearance
      else
        let offset := (effHeight - effWidth) / 2
        segment_hull ⟨center.x, center.y - offset⟩ ⟨center.x, center.y + offset⟩
          effWidth clearance
    else if pad.angle ≠ 0 then
      rotated_rect_hull center halfW halfH pad.angle clearance
    else
      octagonal_hull center halfW halfH clearance
  let chain := { chain with netId := pad.netId }
  (chain,
   listMin (chain.points.map Point.x), listMax (chain.points.map Point.x),
   listMin (chain.points.map Point.y), listMax (chain.points.map Point.y))

/-- The pending hull built for one trace segment by
`HullMap.add_pending_trace` (identity tag taken from the map counter). -/
def mkPendingHull (m : HullMap) (width : ℚ) (netId : Option ℤ)
    (se : (ℚ × ℚ) × (ℚ × ℚ)) : IndexedHull :=
  let start : Point := ⟨se.1.1, se.1.2⟩
  let e : Point := ⟨se.2.1, se.2.2⟩
  let chain := segment_hull start e width m.traceClearance
  let chain := { chain with netId := (netId.getD 0) }
  { hull := chain
    netId := netId.getD 0
    minX := listMin (chain.points.map Point.x)
    maxX := listMax (chain.points.map Point.x)
    minY := listMin (chain.points.map Point.y)
    maxY := listMax (chain.points.map Point.y)
    sourceType := "pending"
    hid := m.nextId }

/-- One iteration of the `add_pending_trace` segment loop. -/
def addPendingSeg (m : HullMap) (width : ℚ) (netId : Option ℤ)
    (se : (ℚ × ℚ) × (ℚ × ℚ)) : HullMap :=
  let indexed := mkPendingHull m width netId se
  { m with
    pendingHulls := m.pendingHulls ++ [indexed]
    hulls := m.hulls ++ [indexed]
    grid := addToGrid m.cellSize m.grid indexed
    nextId := m.nextId + 1 }

/-- `HullMap.add_pending_trace`. -/
def add_pending_trace (m : HullMap) (segments : List (ℚ × ℚ)) (width : ℚ)
    (netId : Option ℤ) : HullMap :=
  if segments.length < 2 then m
  else (segments.zip segments.tail).foldl
    (fun acc se => addPendingSeg acc width netId se) m

/-- `HullMap.clear_pending_hulls`. -/
def clear_pending_hulls (m : HullMap) : HullMap :=
  if m.pendingHulls.isEmpty then m
  else
    let pendingIds := m.pendingHulls.map IndexedHull.hid
    let hulls := m.hulls.filter (fun h => !(pendingIds.contains h.hid))
    { m with
      hulls := hulls
      grid := buildGrid m.cellSize hulls
      pendingHulls := [] }

/-! ## `backend/routing/walkaround.py` -/

/-- `WalkaroundResult`. -/
structure WalkaroundResult where
  path : List Point
  success : Bool
  iterations : ℕ
deriving Repr

/-- `WalkaroundRouter` configuration (`half_width = trace_width / 2` as in
`__init__`). -/
structure WRouter where
  hullMap : HullMap
  traceWidth : ℚ
  maxIterations : ℕ := 1000
  cornerOffset : ℚ := 1/10
  referencePath : Option (List (ℚ × ℚ)) := none
  referenceSpacing : Option ℚ := none

/-- `trace_width / 2`. -/
def WRouter.halfWidth (r : WRouter) : ℚ := r.traceWidth / 2

/-- `WalkaroundRouter._find_first_blocking_hull`. -/
def find_first_blocking_hull (r : WRouter) (s e : Point) (netId : Option ℤ) :
    Option (IndexedHull × Point × ℤ) :=
  (get_blocking_hulls r.hullMap s e r.traceWidth netId).head?

/-- `WalkaroundRouter._can_reach`. -/
def can_reach (r : WRouter) (s e : Point) (netId : Option ℤ) : Bool :=
  (find_first_blocking_hull r s e netId).isNone

/-- `WalkaroundRouter._offset_from_hull`. -/
def offset_from_hull (r : WRouter) (point : Point) (hull : LineChain)
    (edgeIdx : ℤ) : Point :=
  let edge := hull.getEdge edgeIdx
  let edgeDir := (edge.2 - edge.1).normalized
  let outward : Point := ⟨edgeDir.y, -edgeDir.x⟩
  point + outward.scale (r.halfWidth + r.cornerOffset)

/-- `WalkaroundRouter._offset_vertex`.  The `outward.length() < 0.01`
guard is embedded in squared form. -/
def offset_vertex (r : WRouter) (vertex : Point) (hull : LineChain)
    (vertexIdx : ℤ) : Point :=
  let prevPt := hull.pt (vertexIdx - 1)
  let nextPt := hull.pt (vertexIdx + 1)
  let v1 := (vertex - prevPt).normalized
  let v2 := (nextPt - vertex).normalized
  let n1 : Point := ⟨v1.y, -v1.x⟩
  let n2 : Point := ⟨v2.y, -v2.x⟩
  let outward0 := (n1 + n2).normalized
  let outward := if outward0.lengthSq < (1/100)^2 then n1 else outward0
  vertex + outward.scale (r.halfWidth + r.cornerOffset)

/-- The vertex loop of `WalkaroundRouter._walk_hull` (`for _ in
range(max_vertices)` with the visited-vertex set). -/
def walkHullLoop (r : WRouter) (hull : LineChain) (goal : Point)
    (netId : Option ℤ) (stepDir : ℤ) :
    ℕ → ℤ → List ℤ → List Point → List Point
  | 0, _, _, path => path
  | fuel + 1, currentVertex, visited, path =>
      if visited.contains currentVertex then path
      else
        let visited := currentVertex :: visited
        let n : ℤ := hull.points.length
        let vertex := hull.pt currentVertex
        let offsetVertex := offset_vertex r vertex hull currentVertex
        if (point_inside_any_hull r.hullMap offsetVertex netId).isNone then
          let path := path ++ [offsetVertex]
          if can_reach r offsetVertex goal netId then path
          else
            walkHullLoop r hull goal netId stepDir fuel
              ((currentVertex + stepDir) % n) visited path
        else
          walkHullLoop r hull goal netId stepDir fuel
            ((currentVertex + stepDir) % n) visited path

/-- `WalkaroundRouter._walk_hull`. -/
def walk_hull (r : WRouter) (hull : LineChain) (entryPoint : Point)
    (entryEdge : ℤ) (goal : Point) (clockwise : Bool) (netId : Option ℤ) :
    List Point :=
  let n : ℤ := hull.points.length
  let currentVertex := if clockwise then entryEdge else (entryEdge + 1) % n
  let stepDir : ℤ := if clockwise then -1 else 1
  let offsetPt := offset_from_hull r entryPoint hull entryEdge
  let initPath :=
    if (point_inside_any_hull r.hullMap offsetPt netId).isNone then [offsetPt]
    else []
  walkHullLoop r hull goal netId stepDir (n + 2).toNat currentVertex [] initPath

/-- `WalkaroundRouter._path_length` (via the rational square-root
stand-in). -/
def wr_path_length (path : List Point) : ℚ :=
  ((path.zip path.tail).map (fun pq => pq.1.distanceTo pq.2)).foldl (· + ·) 0

/-- `WalkaroundRouter._truncate_to_best_point`: truncate at the first
point that can reach the goal directly, else keep the whole path. -/
def truncate_to_best_point (r : WRouter) (path : List Point) (goal : Point)
    (netId : Option ℤ) : List Point :=
  if path.isEmpty then []
  else
    match (List.range path.length).find?
        (fun i => can_reach r (path.getD i ⟨0, 0⟩) goal netId) with
    | some i => path.take (i + 1)
    | none => path

/-- `WalkaroundRouter._distance_to_reference` (via the rational
square-root stand-in). -/
def distance_to_reference (r : WRouter) (point : Point) : ℚ :=
  match r.referencePath with
  | none => 0
  | some ref =>
      if ref.length < 2 then 0
      else
        ((ref.zip ref.tail).map (fun pq =>
          point_to_segment_distance point ⟨pq.1.1, pq.1.2⟩ ⟨pq.2.1, pq.2.2⟩)).foldl
          min (10^9)

/-- `WalkaroundRouter._reference_following_score`. -/
def reference_following_score (r : WRouter) (path : List Point) : ℚ :=
  match r.referencePath, r.referenceSpacing with
  | some ref, some spacing =>
      if ref.isEmpty ∨ spacing = 0 ∨ path.isEmpty then 0
      else
        (path.map (fun p =>
          let dev := |distance_to_reference r p - spacing|
          dev * dev)).foldl (· + ·) 0 / (path.length : ℚ)
  | _, _ => 0

/-- `WalkaroundRouter._choose_best_path`. -/
def choose_best_path (r : WRouter) (cwPath ccwPath : List Point)
    (goal : Point) (netId : Option ℤ) : Option (List Point) :=
  let cwValid := decide (cwPath.length > 0)
  let ccwValid := decide (ccwPath.length > 0)
  if !cwValid && !ccwValid then none
  else
    let cwT := if cwValid then truncate_to_best_point r cwPath goal netId else []
    let ccwT := if ccwValid then truncate_to_best_point r ccwPath goal netId else []
    if cwT.isEmpty && ccwT.isEmpty then
      if !cwValid then some ccwPath
      else if !ccwValid then some cwPath
      else some (if cwPath.length ≤ ccwPath.length then cwPath else ccwPath)
    else if cwT.isEmpty then some ccwT
    else if ccwT.isEmpty then some cwT
    else
      let cwLen0 := wr_path_length cwT + (cwT.getLastD ⟨0, 0⟩).distanceTo goal
      let ccwLen0 := wr_path_length ccwT + (ccwT.getLastD ⟨0, 0⟩).distanceTo goal
      let useRef :=
        match r.referencePath, r.referenceSpacing with
        | some ref, some spacing => !ref.isEmpty && spacing ≠ 0
        | _, _ => false
      let cwLen := if useRef then
          cwLen0 + (1/2) * reference_following_score r cwT else cwLen0
      let ccwLen := if useRef then
          ccwLen0 + (1/2) * reference_following_score r ccwT else ccwLen0
      some (if cwLen ≤ ccwLen then cwT else ccwT)

/-- `WalkaroundRouter._try_escape`.  The `dist < 0.01` guard is embedded
in squared form; the subsequent division uses the square-root stand-in. -/
def try_escape (r : WRouter) (current : Point) (hull : IndexedHull)
    (goal : Point) : Option Point :=
  let toGoal := goal - current
  if toGoal.lengthSq < (1/100)^2 then none
  else
    let dist := toGoal.length
    let perp1 : Point := ⟨-toGoal.y / dist, toGoal.x / dist⟩
    let perp2 : Point := ⟨toGoal.y / dist, -toGoal.x / dist⟩
    let escapeDist := r.halfWidth * 3
    let e1 := current + perp1.scale escapeDist
    if (point_inside_any_hull r.hullMap e1 (some hull.netId)).isNone then some e1
    else
      let e2 := current + perp2.scale escapeDist
      if (point_inside_any_hull r.hullMap e2 (some hull.netId)).isNone then some e2
      else none

/-- The progress check of `WalkaroundRouter._route_segment` (source lines
320-330): update best squared distance and stall counter, and report
whether the stall cap of 20 aborts the search. -/
def progressCheck (bestDistSq curDistSq : ℚ) (stall : ℕ) : ℚ × ℕ × Bool :=
  if curDistSq < bestDistSq * (95/100) then (curDistSq, 0, false)
  else (bestDistSq, stall + 1, decide (stall + 1 ≥ 20))

/-- Mutable state of the `_route_segment` loop. -/
structure SegState where
  path : List Point
  current : Point
  iterations : ℕ
  visitedHulls : List ℕ
  bestDistSq : ℚ
  stall : ℕ

/-- The main loop of `WalkaroundRouter._route_segment`.  The fuel is the
number of remaining iterations (`max_iterations - iterations`); running
out of fuel is the `while` condition failing. -/
def routeSegmentLoop (r : WRouter) (e : Point) (netId : Option ℤ) :
    ℕ → SegState → WalkaroundResult
  | 0, st => ⟨st.path, false, st.iterations⟩
  | fuel + 1, st =>
      let iterations := st.iterations + 1
      match find_first_blocking_hull r st.current e netId with
      | none => ⟨st.path ++ [e], true, iterations⟩
      | some (hull, entryPoint, entryEdge) =>
          if st.visitedHulls.contains hull.hid then
            match try_escape r st.current hull e with
            | some escape =>
                routeSegmentLoop r e netId fuel
                  { st with path := st.path ++ [escape], current := escape,
                            iterations := iterations }
            | none => ⟨st.path, false, iterations⟩
          else
            let visited := hull.hid :: st.visitedHulls
            let cwPath := walk_hull r hull.hull entryPoint entryEdge e true netId
            let ccwPath := walk_hull r hull.hull entryPoint entryEdge e false netId
            match choose_best_path r cwPath ccwPath e netId with
            | none => ⟨st.path, false, iterations⟩
            | some best =>
                if best.isEmpty then ⟨st.path, false, iterations⟩
                else
                  let path := st.path ++ best
                  let current := best.getLastD ⟨0, 0⟩
                  let curDistSq := (e.x - current.x)^2 + (e.y - current.y)^2
                  let pc := progressCheck st.bestDistSq curDistSq st.stall
                  if pc.2.2 then ⟨path, false, iterations⟩
                  else
                    routeSegmentLoop r e netId fuel
                      { path := path, current := current,
                        iterations := iterations, visitedHulls := [],
                        bestDistSq := pc.1, stall := pc.2.1 }

/-- `WalkaroundRouter._route_segment`. -/
def route_segment (r : WRouter) (s e : Point) (netId : Option ℤ) :
    WalkaroundResult :=
  routeSegmentLoop r e netId r.maxIterations
    { path := [s], current := s, iterations := 0, visitedHulls := [],
      bestDistSq := (e.x - s.x)^2 + (e.y - s.y)^2, stall := 0 }

/-- `WalkaroundRouter._project_onto_reference` (distance comparisons in
squared form; `sqrt` is monotone so the chosen segment is unchanged). -/
def project_onto_reference (r : WRouter) (point : Point) : ℕ × ℚ :=
  match r.referencePath with
  | none => (0, 0)
  | some ref =>
      if ref.length < 2 then (0, 0)
      else
        ((List.range (ref.length - 1)).foldl (fun acc i =>
          let (bestIdx, bestT, bestDistSq) := acc
          let p1 : Point := ⟨(ref.getD i (0, 0)).1, (ref.getD i (0, 0)).2⟩
          let p2 : Point := ⟨(ref.getD (i+1) (0, 0)).1, (ref.getD (i+1) (0, 0)).2⟩
          let dx := p2.x - p1.x
          let dy := p2.y - p1.y
          let lenSq := dx * dx + dy * dy
          let t := if lenSq < 1/10^4 then 0
                   else max 0 (min 1 (((point.x - p1.x) * dx + (point.y - p1.y) * dy) / lenSq))
          let closestX := p1.x + t * dx
          let closestY := p1.y + t * dy
          let distSq := (point.x - closestX)^2 + (point.y - closestY)^2
          if distSq < bestDistSq then (i, t, distSq) else (bestIdx, bestT, bestDistSq))
          ((0, 0, (10 : ℚ)^30) : ℕ × ℚ × ℚ)) |> (fun b => (b.1, b.2.1))

/-- `WalkaroundRouter._get_reference_side`. -/
def get_reference_side (r : WRouter) (point : Point) : ℚ :=
  match r.referencePath with
  | none => 1
  | some ref =>
      if ref.length < 2 then 1
      else
        let closestIdx := (project_onto_reference r point).1
        let p1 : Point := ⟨(ref.getD closestIdx (0, 0)).1, (ref.getD closestIdx (0, 0)).2⟩
        let p2 : Point := ⟨(ref.getD (closestIdx + 1) (0, 0)).1,
                           (ref.getD (closestIdx + 1) (0, 0)).2⟩
        let dx := p2.x - p1.x
        let dy := p2.y - p1.y
        let cross := dx * (point.y - p1.y) - dy * (point.x - p1.x)
        if cross ≥ 0 then 1 else -1

/-- `WalkaroundRouter._compute_corner_offset` (degenerate-length guards in
squared form). -/
def compute_corner_offset (r : WRouter) (idx : ℕ) (side : ℚ) : Point :=
  match r.referencePath with
  | none => ⟨0, 0⟩
  | some ref =>
      let n := ref.length
      let curr : Point := ⟨(ref.getD idx (0, 0)).1, (ref.getD idx (0, 0)).2⟩
      if idx = 0 then
        let nextPt : Point := ⟨(ref.getD 1 (0, 0)).1, (ref.getD 1 (0, 0)).2⟩
        let diff := nextPt - curr
        if diff.lengthSq < (1/1000)^2 then curr
        else
          let len := diff.length
          let direction : Point := ⟨diff.x / len, diff.y / len⟩
          let perp : Point := ⟨-direction.y * side, direction.x * side⟩
          ⟨curr.x + perp.x * (r.referenceSpacing.getD 0),
           curr.y + perp.y * (r.referenceSpacing.getD 0)⟩
      else if idx = n - 1 then
        let prev : Point := ⟨(ref.getD (idx - 1) (0, 0)).1, (ref.getD (idx - 1) (0, 0)).2⟩
        let diff := curr - prev
        if diff.lengthSq < (1/1000)^2 then curr
        else
          let len := diff.length
          let direction : Point := ⟨diff.x / len, diff.y / len⟩
          let perp : Point := ⟨-direction.y * side, direction.x * side⟩
          ⟨curr.x + perp.x * (r.referenceSpacing.getD 0),
           curr.y + perp.y * (r.referenceSpacing.getD 0)⟩
      else
        let prev : Point := ⟨(ref.getD (idx - 1) (0, 0)).1, (ref.getD (idx - 1) (0, 0)).2⟩
        let nextPt : Point := ⟨(ref.getD (idx + 1) (0, 0)).1, (ref.getD (idx + 1) (0, 0)).2⟩
        let inDiff := curr - prev
        let outDiff := nextPt - curr
        if inDiff.lengthSq < (1/1000)^2 ∨ outDiff.lengthSq < (1/1000)^2 then curr
        else
          let inLen := inDiff.length
          let outLen := outDiff.length
          let inDir : Point := ⟨inDiff.x / inLen, inDiff.y / inLen⟩
          let outDir : Point := ⟨outDiff.x / outLen, outDiff.y / outLen⟩
          let perpIn : Point := ⟨-inDir.y * side, inDir.x * side⟩
          let perpOut : Point := ⟨-outDir.y * side, outDir.x * side⟩
          let bisector : Point := ⟨perpIn.x + perpOut.x, perpIn.y + perpOut.y⟩
          let perp :=
            if bisector.lengthSq < (1/1000)^2 then perpIn
            else
              let bl := bisector.length
              (⟨bisector.x / bl, bisector.y / bl⟩ : Point)
          ⟨curr.x + perp.x * (r.referenceSpacing.getD 0),
           curr.y + perp.y * (r.referenceSpacing.getD 0)⟩

/-- `WalkaroundRouter._generate_offset_waypoints`.  `compute_corner_offset`
always returns a (truthy) point, so every offset is appended. -/
def generate_offset_waypoints (r : WRouter) (start : Point) : List Point :=
  match r.referencePath, r.referenceSpacing with
  | some ref, some spacing =>
      if ref.length < 2 ∨ spacing = 0 then []
      else
        let startSide := get_reference_side r start
        (List.range ref.length).map (fun i => compute_corner_offset r i startSide)
  | _, _ => []

/-- The `if self.reference_path and self.reference_spacing` companion-mode
test of `WalkaroundRouter.route` (Python truthiness: non-empty list,
non-`None` and non-zero spacing). -/
def companionMode (r : WRouter) : Bool :=
  match r.referencePath, r.referenceSpacing with
  | some ref, some spacing => !ref.isEmpty && spacing ≠ 0
  | _, _ => false

/-- One pass of the companion-mode target loop of `WalkaroundRouter.route`:
route to the next target, extend the accumulated path on success (skipping
the duplicated first point), fall back to a direct connection otherwise. -/
def companionStep (r : WRouter) (netId : Option ℤ)
    (acc : List Point × Point × ℕ) (target : Point) : List Point × Point × ℕ :=
  let (fullPath, current, totalIters) := acc
  let res := route_segment r current target netId
  let totalIters := totalIters + res.iterations
  if res.success && decide (res.path.length > 1) then
    (fullPath ++ res.path.tail, res.path.getLastD ⟨0, 0⟩, totalIters)
  else
    (fullPath ++ [target], target, totalIters)

/-- `WalkaroundRouter.route`: companion routing through the reference
waypoints when a non-empty reference path and non-zero spacing are set,
plain `_route_segment` otherwise. -/
def wr_route (r : WRouter) (s e : Point) (netId : Option ℤ) :
    WalkaroundResult :=
  if companionMode r then
    let waypoints := generate_offset_waypoints r s
    let targets := waypoints ++ [e]
    let final := targets.foldl (companionStep r netId) ([s], s, 0)
    ⟨final.1, true, final.2.2⟩
  else
    route_segment r s e netId

/-! ## `backend/routing/optimizer.py` (the passes the claims name) -/

/-- Inner loop of `PathOptimizer._remove_duplicates`: `lastKept` is
`result[-1]`, `acc` is the (reversed) result list, and the final element
of the input is compared against the tighter `0.001` threshold.  Distance
comparisons are embedded in squared form. -/
def removeDupGo (eps : ℚ) : Point → List Point → List Point → List Point
  | _, acc, [] => acc.reverse
  | lastKept, acc, [p] =>
      if Point.distSq p lastKept > (1/1000)^2 then (p :: acc).reverse
      else acc.reverse
  | lastKept, acc, p :: rest =>
      if Point.distSq p lastKept > eps^2 then removeDupGo eps p (p :: acc) rest
      else removeDupGo eps lastKept acc rest

/-- `PathOptimizer._remove_duplicates` (default `epsilon = 0.05`). -/
def remove_duplicates (points : List Point) (eps : ℚ := 1/20) : List Point :=
  match points with
  | [] => []
  | [p] => [p]
  | p0 :: rest =>
      let result := removeDupGo eps p0 [p0] rest
      if result.length = 1 ∧ points.length > 1 then
        result ++ [points.getLastD ⟨0, 0⟩]
      else result

/-- `PathOptimizer._is_45_degree_angle` (default `tolerance = 0.01`):
the 45-degree discipline predicate of the spec. -/
def is_45_degree_angle (dx dy : ℚ) (tolerance : ℚ := 1/100) : Bool :=
  if |dx| < tolerance ∧ |dy| < tolerance then true
  else
    let adx := |dx|
    let ady := |dy|
    if adx < tolerance ∨ ady < tolerance then true
    else if ady > tolerance then decide (|adx / ady - 1| < tolerance)
    else false

/-! ## `backend/routing/pathfinding.py` — grid A* -/

/-- The 8 movement directions (N, NE, E, SE, S, SW, W, NW). -/
def DIRECTIONS : List (ℤ × ℤ) :=
  [(0, -1), (1, -1), (1, 0), (1, 1), (0, 1), (-1, 1), (-1, 0), (-1, -1)]

/-- `DIRECTION_COSTS`: orthogonal 1, diagonal `SQRT2`. -/
def DIRECTION_COSTS : List ℚ := [1, SQRT2, 1, SQRT2, 1, SQRT2, 1, SQRT2]

/-- `TURN_PENALTIES.get(diff, 0.5)`. -/
def turnPenalty (d : ℤ) : ℚ :=
  if d = 0 then 0
  else if d = 1 then 1/10
  else if d = 2 then 1/2
  else if d = 3 then 3/2
  else if d = 4 then 3
  else 1/2

/-- `heuristic`: octile distance. -/
def heuristic (x1 y1 x2 y2 : ℤ) : ℚ :=
  let dx : ℚ := (|x2 - x1| : ℤ)
  let dy : ℚ := (|y2 - y1| : ℤ)
  max dx dy + (SQRT2 - 1) * min dx dy

/-- Offsets of the closed disk of radius `gr` in grid units (the circular
structuring element of `_expand_cells_fast` and the loop of
`get_expanded_blocked`). -/
def diskOffsets (gr : ℤ) : List (ℤ × ℤ) :=
  (rangeZ (-gr) (gr + 1)).foldl (fun acc dx =>
    (rangeZ (-gr) (gr + 1)).foldl (fun acc2 dy =>
      if dx * dx + dy * dy ≤ gr * gr then acc2 ++ [(dx, dy)] else acc2) acc) []

/-- Minkowski sum of a cell set with the grid disk of radius `gr` (what
the numpy `binary_dilation` in `_expand_cells_fast` computes; the padding
in the source guarantees the dilation is never clipped). -/
def expandByDisk (cells : Finset (ℤ × ℤ)) (gr : ℤ) : Finset (ℤ × ℤ) :=
  cells.biUnion (fun c =>
    ((diskOffsets gr).map (fun d => (c.1 + d.1, c.2 + d.2))).toFinset)

/-- `_expand_cells_fast`. -/
def expand_cells_fast (cells : Finset (ℤ × ℤ)) (radius resolution : ℚ) :
    Finset (ℤ × ℤ) :=
  if cells = ∅ ∨ radius ≤ 0 then cells
  else
    let gridRadius : ℤ := ⌈radius / resolution⌉
    if gridRadius = 0 then cells else expandByDisk cells gridRadius

/-- `ObstacleMap` as consumed by `astar_search`: its resolution, blocked
cell set and the board bounds returned by `get_bounds` (the obstacle
construction from the PCB parser is not exercised by any claim, so the
claims quantify over arbitrary blocked sets and bounds). -/
structure ObstacleMapM where
  resolution : ℚ
  blocked : Finset (ℤ × ℤ)
  minGx : ℤ
  minGy : ℤ
  maxGx : ℤ
  maxGy : ℤ

/-- `ObstacleMap.get_expanded_blocked` (cache elided; the cached value
equals the recomputation). -/
def get_expanded_blocked (m : ObstacleMapM) (radius : ℚ) : Finset (ℤ × ℤ) :=
  if radius ≤ 0 then m.blocked
  else expandByDisk m.blocked ⌈radius / m.resolution⌉

/-- Static data of one `astar_search` run after the set expansion. -/
structure AEnv where
  blocked : Finset (ℤ × ℤ)
  extra : Finset (ℤ × ℤ)
  allowed : Finset (ℤ × ℤ)
  minGx : ℤ
  minGy : ℤ
  maxGx : ℤ
  maxGy : ℤ
  endGx : ℤ
  endGy : ℤ

/-- A cell is blocked for the search iff it lies in `blocked ∪ extra` and
not in `allowed` (source: `(npos in blocked or npos in extra) and npos not
in allowed`). -/
def cellBlocked (env : AEnv) (c : ℤ × ℤ) : Prop :=
  (c ∈ env.blocked ∨ c ∈ env.extra) ∧ c ∉ env.allowed

instance (env : AEnv) (c : ℤ × ℤ) : Decidable (cellBlocked env c) := by
  unfold cellBlocked; infer_instance

/-- Heap entries `(f_score, g_score, x, y, direction)`. -/
abbrev AEntry := ℚ × ℚ × ℤ × ℤ × ℤ

/-- Strict lexicographic comparison of heap entries (Python tuple `<`). -/
def entryLt (a b : AEntry) : Bool :=
  if a.1 ≠ b.1 then decide (a.1 < b.1)
  else if a.2.1 ≠ b.2.1 then decide (a.2.1 < b.2.1)
  else if a.2.2.1 ≠ b.2.2.1 then decide (a.2.2.1 < b.2.2.1)
  else if a.2.2.2.1 ≠ b.2.2.2.1 then decide (a.2.2.2.1 < b.2.2.2.1)
  else decide (a.2.2.2.2 < b.2.2.2.2)

/-- `heapq.heappush` modelled as ordered insertion: the heap is kept as an
ascending list whose head is the minimum.  `heappop` always returns a
minimal tuple, and equal tuples are indistinguishable values, so this is
observationally equivalent to the binary heap. -/
def heapPush (x : AEntry) : List AEntry → List AEntry
  | [] => [x]
  | y :: ys => if entryLt x y then x :: y :: ys else y :: heapPush x ys

/-- Mutable state of the `astar_search` loop. -/
structure AState where
  openSet : List AEntry
  closedSet : List (ℤ × ℤ)
  gScores : List ((ℤ × ℤ) × ℚ)
  cameFrom : List ((ℤ × ℤ) × (ℤ × ℤ))

/-- One pass of the neighbour-expansion `for dir_idx in range(8)` body. -/
def neighborStep (env : AEnv) (cx cy : ℤ) (g : ℚ) (cDir : ℤ)
    (st : AState) (dirIdx : ℕ) : AState :=
  let d := DIRECTIONS.getD dirIdx (0, 0)
  let nx := cx + d.1
  let ny := cy + d.2
  if ¬(env.minGx ≤ nx ∧ nx ≤ env.maxGx ∧ env.minGy ≤ ny ∧ ny ≤ env.maxGy) then st
  else if st.closedSet.contains (nx, ny) then st
  else
    let isGoal := nx = env.endGx ∧ ny = env.endGy
    if ¬isGoal ∧ cellBlocked env (nx, ny) then st
    else if d.1 ≠ 0 ∧ d.2 ≠ 0 ∧
        (cellBlocked env (cx + d.1, cy) ∨ cellBlocked env (cx, cy + d.2)) then st
    else
      let moveCost0 := DIRECTION_COSTS.getD dirIdx 1
      let moveCost :=
        if 0 ≤ cDir ∧ cDir ≠ (dirIdx : ℤ) then
          let dirDiff := |(dirIdx : ℤ) - cDir|
          let dirDiff := if dirDiff > 4 then 8 - dirDiff else dirDiff
          moveCost0 + turnPenalty dirDiff
        else moveCost0
      let newG := g + moveCost
      if (lookupA st.gScores (nx, ny)).any (fun oldG => oldG ≤ newG) then st
      else
        let h := heuristic nx ny env.endGx env.endGy
        { st with
          gScores := insertA st.gScores (nx, ny) newG
          cameFrom := insertA st.cameFrom (nx, ny) (cx, cy)
          openSet := heapPush (newG + h * (3/2), newG, nx, ny, (dirIdx : ℤ))
            st.openSet }

/-- Result of the search loop: either the goal was popped (with the final
parent map) or no path was found (open list exhausted or the 100000
iteration cap was hit). -/
inductive AOutcome where
  | found (cameFrom : List ((ℤ × ℤ) × (ℤ × ℤ))) (pos : ℤ × ℤ) (pops : ℕ)
  | noPath (pops : ℕ)

/-- Number of nodes the loop popped from the open list. -/
def AOutcome.pops : AOutcome → ℕ
  | .found _ _ p => p
  | .noPath p => p

/-- The `while open_set and iterations < max_iterations` loop; the fuel is
the number of iterations remaining before the cap. -/
def astarLoop (env : AEnv) : ℕ → AState → ℕ → AOutcome
  | 0, _, pops => .noPath pops
  | fuel + 1, st, pops =>
      match st.openSet with
      | [] => .noPath pops
      | (_, g, cx, cy, cDir) :: rest =>
          if cx = env.endGx ∧ cy = env.endGy then
            .found st.cameFrom (cx, cy) (pops + 1)
          else if st.closedSet.contains (cx, cy) then
            astarLoop env fuel { st with openSet := rest } (pops + 1)
          else
            let st1 : AState :=
              { st with openSet := rest, closedSet := (cx, cy) :: st.closedSet }
            let st2 := (List.range 8).foldl
              (fun s i => neighborStep env cx cy g cDir s i) st1
            astarLoop env fuel st2 (pops + 1)

/-- Set expansion and grid conversion at the top of `astar_search`;
returns the search environment and the start cell. -/
def astarSetup (m : ObstacleMapM) (startX startY endX endY traceRadius : ℚ)
    (allowedCells extraBlocked : Finset (ℤ × ℤ)) : AEnv × (ℤ × ℤ) :=
  let res := m.resolution
  let blocked :=
    if traceRadius > 0 then get_expanded_blocked m traceRadius else m.blocked
  let extra :=
    if traceRadius > 0 then
      if extraBlocked ≠ ∅ then expand_cells_fast extraBlocked traceRadius res
      else ∅
    else extraBlocked
  let allowed :=
    if traceRadius > 0 then
      if allowedCells ≠ ∅ then expand_cells_fast allowedCells traceRadius res
      else ∅
    else allowedCells
  let startG := (pyRound (startX / res), pyRound (startY / res))
  let endG := (pyRound (endX / res), pyRound (endY / res))
  ({ blocked := blocked, extra := extra, allowed := allowed,
     minGx := m.minGx, minGy := m.minGy, maxGx := m.maxGx, maxGy := m.maxGy,
     endGx := endG.1, endGy := endG.2 }, startG)

/-- Initial search state. -/
def astarInitState (env : AEnv) (startG : ℤ × ℤ) : AState :=
  let h := heuristic startG.1 startG.2 env.endGx env.endGy
  { openSet := [(h * (3/2), 0, startG.1, startG.2, -1)]
    closedSet := []
    gScores := [(startG, 0)]
    cameFrom := [] }

/-- The loop outcome of one `astar_search` run (cap 100000). -/
def astarOutcome (m : ObstacleMapM) (startX startY endX endY traceRadius : ℚ)
    (allowedCells extraBlocked : Finset (ℤ × ℤ)) : AOutcome :=
  let (env, startG) :=
    astarSetup m startX startY endX endY traceRadius allowedCells extraBlocked
  astarLoop env 100000 (astarInitState env startG) 0

/-- The `while pos != start` raw-path reconstruction of
`_reconstruct_path`: returns `[start, ..., end]`.  The fuel bounds the
chain length; parent chains produced by the search are acyclic, so the
fuel `cameFrom.length + 1` used below never runs out. -/
def buildRaw (cameFrom : List ((ℤ × ℤ) × (ℤ × ℤ))) (start : ℤ × ℤ) :
    ℕ → (ℤ × ℤ) → Option (List (ℤ × ℤ))
  | 0, pos => if pos = start then some [start] else none
  | fuel + 1, pos =>
      if pos = start then some [start]
      else
        match lookupA cameFrom pos with
        | none => none
        | some p => (buildRaw cameFrom start fuel p).map (fun l => l ++ [pos])

/-- Collinear-point removal of `_reconstruct_path`: `prev` is the last
kept point; directions are compared after sign normalisation
(`dx // abs(dx)` is `Int.sign` for nonzero `dx`). -/
def simplifyGo : (ℤ × ℤ) → List (ℤ × ℤ) → List (ℤ × ℤ) → List (ℤ × ℤ)
  | _, acc, [] => acc.reverse
  | _, acc, [last] => (last :: acc).reverse
  | prev, acc, curr :: next :: rest =>
      let d1 := (Int.sign (curr.1 - prev.1), Int.sign (curr.2 - prev.2))
      let d2 := (Int.sign (next.1 - curr.1), Int.sign (next.2 - curr.2))
      if d1 ≠ d2 then simplifyGo curr (curr :: acc) (next :: rest)
      else simplifyGo prev acc (next :: rest)

/-- The simplification pass of `_reconstruct_path` on the raw grid path. -/
def simplifyRaw (raw : List (ℤ × ℤ)) : List (ℤ × ℤ) :=
  if raw.length < 3 then raw
  else
    match raw with
    | [] => raw
    | p0 :: rest => simplifyGo p0 [p0] rest

/-- The raw grid path of one `astar_search` run (`none` when the search
reports no path). -/
def astarSearchRaw (m : ObstacleMapM)
    (startX startY endX endY traceRadius : ℚ)
    (allowedCells extraBlocked : Finset (ℤ × ℤ)) : Option (List (ℤ × ℤ)) :=
  let (_, startG) :=
    astarSetup m startX startY endX endY traceRadius allowedCells extraBlocked
  match astarOutcome m startX startY endX endY traceRadius allowedCells
      extraBlocked with
  | .found cameFrom pos _ => buildRaw cameFrom startG (cameFrom.length + 1) pos
  | .noPath _ => none

/-- `astar_search`: world-coordinate waypoints, `[]` when no path. -/
def astar_search (m : ObstacleMapM)
    (startX startY endX endY traceRadius : ℚ)
    (allowedCells extraBlocked : Finset (ℤ × ℤ)) : List (ℚ × ℚ) :=
  match astarSearchRaw m startX startY endX endY traceRadius allowedCells
      extraBlocked with
  | some raw => (simplifyRaw raw).map (fun c =>
      ((c.1 : ℚ) * m.resolution, (c.2 : ℚ) * m.resolution))
  | none => []

/-! ## `TraceRouter._route_walkaround` (facade) -/

/-- `PendingTraceStore.get_traces_by_layer`. -/
def get_traces_by_layer (s : PendingTraceStore) (layer : String) :
    List PendingTrace :=
  (s.traces.map Prod.snd).filter (fun t => t.layer = layer)

/-- The pending-hull insertions performed by `_route_walkaround` before
the `try` block: one `add_pending_trace` per pending trace of the layer
whose net differs from the request's net. -/
def addPendingTraces (m : HullMap) (ts : List PendingTrace) : HullMap :=
  ts.foldl (fun acc t => add_pending_trace acc t.segments t.width t.netId) m

/-- Outcome of the `try` body of `_route_walkaround`.  A successful
walkaround returns its waypoints (the optimizer is skipped when a
reference path is given); a failed walkaround falls back to
`_route_element_aware`, which raises `TypeError` as shipped (it forwards
`reference_path`/`reference_spacing` keywords that
`astar_search_element_aware` does not accept), modelled as the exceptional
outcome. -/
def routeWalkaroundBody (m : HullMap) (s e : Point) (width : ℚ)
    (netId : Option ℤ) (referencePath : Option (List (ℚ × ℚ)))
    (referenceSpacing : Option ℚ) : Except Unit (List (ℚ × ℚ)) :=
  let r : WRouter :=
    { hullMap := m, traceWidth := width, maxIterations := 1000,
      cornerOffset := 1/10, referencePath := referencePath,
      referenceSpacing := referenceSpacing }
  let result := wr_route r s e netId
  if result.success then
    -- When a (truthy) reference path is given the facade returns the
    -- walkaround waypoints unchanged ("skip if following a reference to
    -- preserve waypoints"); with no reference the facade then runs the
    -- PathOptimizer pass chain, whose output no claim depends on (C1
    -- targets the duplicate-removal pass directly), so that application
    -- is elided here.
    Except.ok (result.path.map (fun p => (p.x, p.y)))
  else Except.error ()

/-- `TraceRouter._route_walkaround`: pending traces of the layer are added
as temporary hulls, the body runs, and the `finally` block clears the
pending hulls on success, failure and exception alike.  Returns the
outcome together with the final hull-map state. -/
def route_walkaround (m : HullMap) (store : PendingTraceStore) (layer : String)
    (s e : Point) (width : ℚ) (netId : Option ℤ)
    (referencePath : Option (List (ℚ × ℚ))) (referenceSpacing : Option ℚ) :
    Except Unit (List (ℚ × ℚ)) × HullMap :=
  let pending := get_traces_by_layer store layer
  let pendingFiltered := pending.filter (fun t =>
    netId.isNone || decide (t.netId ≠ netId))
  let m1 := addPendingTraces m pendingFiltered
  let body := routeWalkaroundBody m1 s e width netId referencePath
    referenceSpacing
  (body, clear_pending_hulls m1)

end SemiRoute

namespace SemiRoute

/-! ## Claim C5: rotated roundrect pad hull bounding box -/

/-- C5: the hull built for a roundrect pad of width 1.7 mm and height
2.0 mm rotated −90° with clearance 0.2 mm.  `_create_pad_hull` swaps the
effective dimensions for a ±90° rotation and then passes the swapped
half-dimensions to `rotated_rect_hull`, which rotates the octagon by the
pad angle again — against that function's documented contract that it
receives the half-dimensions *before* rotation.  The resulting bounding
box at centre (0,0) is [−1.05, 1.05] × [−1.2, 1.2]: the x-bound misses
the specified (physically correct) value 1.2 by 0.15 mm, three times the
allowed 0.05 mm. -/
theorem rotated_pad_hull_bbox :
    (create_pad_hull (1/5)
      { x := 0, y := 0, width := 17/10, height := 2, angle := -90,
        shape := "roundrect", netId := 1 }).2 =
      (-(21/20), 21/20, -(6/5), 6/5) ∧
    |(-(21/20) : ℚ) - (0 - 6/5)| > 1/20 ∧
    |(21/20 : ℚ) - (0 + 6/5)| > 1/20 := by
  refine ⟨by with_unfolding_all rfl, ?_, ?_⟩
  · rw [show ((-(21/20) : ℚ) - (0 - 6/5)) = 3/20 by norm_num,
        abs_of_nonneg (by norm_num : (0:ℚ) ≤ 3/20)]
    norm_num
  · rw [show (((21/20) : ℚ) - (0 + 6/5)) = -(3/20) by norm_num, abs_neg,
        abs_of_nonneg (by norm_num : (0:ℚ) ≤ 3/20)]
    norm_num

/-! ## Claim C6: walkaround progress rule -/

/-- C6 (amended): the progress check of `_route_segment` updates the best
*squared* distance: the stall counter is incremented exactly when the new
squared distance-to-goal is not less than 95% of the best squared
distance seen so far (≈ a 2.53% reduction of the distance itself), it
resets to 0 with the best distance updated otherwise, and the abort flag
fires exactly when the incremented counter reaches 20. -/
theorem progress_check_squared_rule (b c : ℚ) (s : ℕ) :
    ((progressCheck b c s).2.1 = s + 1 ↔ ¬(c < b * (95/100))) ∧
    ((progressCheck b c s).1 = c ∧ (progressCheck b c s).2.1 = 0 ↔
      c < b * (95/100)) ∧
    ((progressCheck b c s).2.2 = true ↔
      ¬(c < b * (95/100)) ∧ 20 ≤ s + 1) := by
  unfold progressCheck
  split
  · next h => exact ⟨by simp [h], by simp [h], by simp [h]⟩
  · next h =>
      refine ⟨by simp [h], ?_, by simp [h]⟩
      simp only [Prod.mk.injEq]
      exact ⟨fun hc => absurd hc.2 (Nat.succ_ne_zero s), fun hlt => absurd hlt h⟩

/-- C6 counterexample to the claim as stated: with best distance-to-goal
1 (squared: 1) and a step landing at distance 24/25 = 0.96 (squared:
576/625 = 0.9216), the new distance is *not* at least 5% less than the
best (0.96 > 0.95), so the claim predicts a stall increment — but the
code compares squared distances (0.9216 < 0.95) and instead resets the
counter to 0 and updates the best distance. -/
theorem progress_check_linear_rule_counterexample :
    (24/25 : ℚ) > (95/100) * 1 ∧
    progressCheck 1 ((24/25)^2) 5 = ((24/25)^2, 0, false) := by
  constructor
  · norm_num
  · unfold progressCheck
    norm_num

/-! ## Claim C2: 45° discipline -/

/-- A hull map over a board with no pads, traces or vias (all queries are
unobstructed). -/
def emptyHullMap : HullMap :=
  { clearance := 1/5, traceClearance := 1/5, cellSize := 2,
    grid := buildGrid 2 [], hulls := [], pendingHulls := [], nextId := 0 }

/-- The walkaround router as `_route_walkaround` builds it for a
reference-guided (companion) request with spacing 1 mm along the
horizontal reference [(0,0), (10,0)]. -/
def companionRouter : WRouter :=
  { hullMap := emptyHullMap, traceWidth := 1/4, maxIterations := 1000,
    cornerOffset := 1/10, referencePath := some [(0, 0), (10, 0)],
    referenceSpacing := some 1 }

set_option maxRecDepth 20000 in
/-- C2: a companion route request from (1,5) to (10,3) along the
reference [(0,0),(10,0)] at spacing 1 on an obstacle-free layer succeeds
and returns [(1,5), (0,1), (10,1), (10,3)] — the facade forwards it
unoptimized — whose first segment has direction (−1,−4), which is not a
multiple of 45°: all three disjuncts of the 45°-discipline predicate fail
at the optimizer's tolerance ε = 0.01.  (The repository's own test
`test_companion_route_optimizer_applied` asserts the optimizer is applied
to companion routes; `_route_walkaround` skips it.) -/
theorem companion_route_violates_45 :
    (wr_route companionRouter ⟨1, 5⟩ ⟨10, 3⟩ none).success = true ∧
    (wr_route companionRouter ⟨1, 5⟩ ⟨10, 3⟩ none).path =
      [⟨1, 5⟩, ⟨0, 1⟩, ⟨10, 1⟩, ⟨10, 3⟩] ∧
    (route_walkaround emptyHullMap (PendingTraceStore.init (1/40)) "F.Cu"
      ⟨1, 5⟩ ⟨10, 3⟩ (1/4) none (some [(0, 0), (10, 0)]) (some 1)).1 =
      Except.ok [(1, 5), (0, 1), (10, 1), (10, 3)] ∧
    is_45_degree_angle (0 - 1) (1 - 5) (1/100) = false ∧
    ¬(|(0 - 1 : ℚ)| < 1/100 ∨ |(1 - 5 : ℚ)| < 1/100 ∨
      abs (|(0 - 1 : ℚ)| - |(1 - 5 : ℚ)|) < 1/100) := by
  refine ⟨by with_unfolding_all rfl, by with_unfolding_all rfl,
          by with_unfolding_all rfl, by with_unfolding_all rfl, ?_⟩
  rw [show |(0 - 1 : ℚ)| = 1 by rw [show (0 - 1 : ℚ) = -1 by norm_num,
        abs_neg, abs_one],
      show |(1 - 5 : ℚ)| = 4 by rw [show (1 - 5 : ℚ) = -4 by norm_num,
        abs_neg, abs_of_nonneg (by norm_num : (0:ℚ) ≤ 4)],
      show |(1 : ℚ) - 4| = 3 by rw [show (1 - 4 : ℚ) = -3 by norm_num,
        abs_neg, abs_of_nonneg (by norm_num : (0:ℚ) ≤ 3)]]
  norm_num

/-! ## Claim C4: A* termination and iteration cap -/

/-- The loop pops at most `fuel` further nodes. -/
theorem astarLoop_pops_le (env : AEnv) :
    ∀ fuel st pops, (astarLoop env fuel st pops).pops ≤ pops + fuel := by
  intro fuel
  induction fuel with
  | zero => intro st pops; simp [astarLoop, AOutcome.pops]
  | succ n ih =>
      intro st pops
      unfold astarLoop
      match h : st.openSet with
      | [] => simp [AOutcome.pops]
      | (f, g, cx, cy, cDir) :: rest =>
          dsimp only
          split
          · simp only [AOutcome.pops]
            omega
          · split
            · exact le_trans (ih _ _) (by omega)
            · exact le_trans (ih _ _) (by omega)

/-- C4: for every input, the `astar_search` loop pops at most 100000
nodes from the open list, and when it stops with no path (open list empty
or iteration cap reached without the goal being popped) `astar_search`
returns the empty list. -/
theorem astar_termination (m : ObstacleMapM)
    (sx sy ex ey tr : ℚ) (allowed extra : Finset (ℤ × ℤ)) :
    (astarOutcome m sx sy ex ey tr allowed extra).pops ≤ 100000 ∧
    (∀ p, astarOutcome m sx sy ex ey tr allowed extra = .noPath p →
      astar_search m sx sy ex ey tr allowed extra = []) := by
  constructor
  · have h := astarLoop_pops_le
      (astarSetup m sx sy ex ey tr allowed extra).1 100000
      (astarInitState (astarSetup m sx sy ex ey tr allowed extra).1
        (astarSetup m sx sy ex ey tr allowed extra).2) 0
    simpa [astarOutcome] using h
  · intro p hp
    unfold astar_search astarSearchRaw
    rw [hp]

/-- C4 witness: a board whose bounds contain only the start cell and whose
goal cell lies outside; the loop pops the start node, finds no in-bounds
neighbour, and stops with an empty open list after 1 pop, returning no
path. -/
theorem astar_termination_witness :
    (astarOutcome ⟨1, ∅, 0, 0, 0, 0⟩ 0 0 5 5 0 ∅ ∅).pops ≤ 100000 ∧
    astarOutcome ⟨1, ∅, 0, 0, 0, 0⟩ 0 0 5 5 0 ∅ ∅ = .noPath 1 ∧
    astar_search ⟨1, ∅, 0, 0, 0, 0⟩ 0 0 5 5 0 ∅ ∅ = [] := by
  refine ⟨(astar_termination _ 0 0 5 5 0 ∅ ∅).1, ?_, ?_⟩
  · with_unfolding_all rfl
  · exact (astar_termination _ 0 0 5 5 0 ∅ ∅).2 1 (by with_unfolding_all rfl)

/-! ## Claim C3: corner-cut rejection -/

theorem lookupA_insertA {K V : Type} [DecidableEq K]
    (l : List (K × V)) (k k' : K) (v : V) :
    lookupA (insertA l k v) k' = if k' = k then some v else lookupA l k' := by
  induction l with
  | nil =>
      by_cases h : k' = k
      · subst h
        simp [insertA, lookupA]
      · have h2 : ¬k = k' := fun hh => h hh.symm
        simp [insertA, lookupA, h, h2]
  | cons kv rest ih =>
      obtain ⟨k0, v0⟩ := kv
      by_cases h0 : k0 = k
      · subst h0
        by_cases h' : k' = k0
        · subst h'
          simp [insertA, lookupA]
        · have h2 : ¬k0 = k' := fun hh => h' hh.symm
          simp [insertA, lookupA, h', h2]
      · by_cases h' : k0 = k'
        · subst h'
          simp [insertA, lookupA, h0]
        · simp [insertA, lookupA, h0, h', ih]

/-- Admissibility of one parent link recorded by the search: the step is
one of the 8 unit directions, and a diagonal step has both side cells
unblocked (source lines 218-225). -/
def stepOk (env : AEnv) (a b : ℤ × ℤ) : Prop :=
  (b.1 - a.1, b.2 - a.2) ∈ DIRECTIONS ∧
  (b.1 - a.1 ≠ 0 ∧ b.2 - a.2 ≠ 0 →
    ¬cellBlocked env (b.1, a.2) ∧ ¬cellBlocked env (a.1, b.2))

/-- Invariant: every entry of the parent map is an admissible step. -/
def cameInv (env : AEnv) (came : List ((ℤ × ℤ) × (ℤ × ℤ))) : Prop :=
  ∀ b a, lookupA came b = some a → stepOk env a b

theorem dirs_getD_mem : ∀ i : ℕ, i < 8 → DIRECTIONS.getD i (0, 0) ∈ DIRECTIONS := by
  decide

/-- Inserting an admissible link preserves the parent-map invariant. -/
theorem cameInv_insert (env : AEnv) (came : List ((ℤ × ℤ) × (ℤ × ℤ)))
    (a b : ℤ × ℤ) (hinv : cameInv env came) (hok : stepOk env a b) :
    cameInv env (insertA came b a) := by
  intro b' a' hb
  rw [lookupA_insertA] at hb
  split at hb
  · next hbkey =>
      subst hbkey
      cases hb
      exact hok
  · exact hinv b' a' hb

/-- Passing the corner-cut check makes the step admissible. -/
theorem stepOk_of_corner (env : AEnv) (cx cy : ℤ) (i : ℕ) (hi : i < 8)
    (hcorner : ¬((DIRECTIONS.getD i (0, 0)).1 ≠ 0 ∧
      (DIRECTIONS.getD i (0, 0)).2 ≠ 0 ∧
      (cellBlocked env (cx + (DIRECTIONS.getD i (0, 0)).1, cy) ∨
       cellBlocked env (cx, cy + (DIRECTIONS.getD i (0, 0)).2)))) :
    stepOk env (cx, cy)
      (cx + (DIRECTIONS.getD i (0, 0)).1, cy + (DIRECTIONS.getD i (0, 0)).2) := by
  constructor
  · have hmem := dirs_getD_mem i hi
    simpa using hmem
  · intro hdiag
    have hd1 : (DIRECTIONS.getD i (0, 0)).1 ≠ 0 := by
      simpa using hdiag.1
    have hd2 : (DIRECTIONS.getD i (0, 0)).2 ≠ 0 := by
      simpa using hdiag.2
    have hnc : ¬(cellBlocked env (cx + (DIRECTIONS.getD i (0, 0)).1, cy) ∨
        cellBlocked env (cx, cy + (DIRECTIONS.getD i (0, 0)).2)) := by
      intro hor
      exact hcorner ⟨hd1, hd2, hor⟩
    push_neg at hnc
    exact ⟨by simpa using hnc.1, by simpa using hnc.2⟩

theorem neighborStep_inv (env : AEnv) (cx cy : ℤ) (g : ℚ) (cDir : ℤ)
    (st : AState) (i : ℕ) (hi : i < 8)
    (hinv : cameInv env st.cameFrom) :
    cameInv env (neighborStep env cx cy g cDir st i).cameFrom := by
  unfold neighborStep
  dsimp only
  split
  · exact hinv
  · split
    · exact hinv
    · split
      · exact hinv
      · split
        · exact hinv
        · next hcorner =>
            split
            · split
              all_goals
                split
                · exact hinv
                · exact cameInv_insert env st.cameFrom (cx, cy) _ hinv
                    (stepOk_of_corner env cx cy i hi hcorner)
            · split
              · exact hinv
              · exact cameInv_insert env st.cameFrom (cx, cy) _ hinv
                  (stepOk_of_corner env cx cy i hi hcorner)

theorem foldl_neighborStep_inv (env : AEnv) (cx cy : ℤ) (g : ℚ) (cDir : ℤ) :
    ∀ (l : List ℕ), (∀ i ∈ l, i < 8) → ∀ (st : AState),
    cameInv env st.cameFrom →
    cameInv env ((l.foldl (fun s i => neighborStep env cx cy g cDir s i) st)).cameFrom := by
  intro l
  induction l with
  | nil => intro _ st h; simpa using h
  | cons i rest ih =>
      intro hlt st h
      simp only [List.foldl_cons]
      exact ih (fun j hj => hlt j (List.mem_cons_of_mem i hj))
        (neighborStep env cx cy g cDir st i)
        (neighborStep_inv env cx cy g cDir st i (hlt i (List.mem_cons_self i rest)) h)

theorem astarLoop_found_inv (env : AEnv) :
    ∀ (fuel : ℕ) (st : AState) (pops : ℕ)
      (came : List ((ℤ × ℤ) × (ℤ × ℤ))) (pos : ℤ × ℤ) (p : ℕ),
    astarLoop env fuel st pops = .found came pos p →
    cameInv env st.cameFrom →
    cameInv env came ∧ pos = (env.endGx, env.endGy) := by
  intro fuel
  induction fuel with
  | zero => intro st pops came pos p h; simp [astarLoop] at h
  | succ n ih =>
      intro st pops came pos p h hinv
      unfold astarLoop at h
      match hopen : st.openSet with
      | [] => rw [hopen] at h; simp at h
      | (f, g, cx, cy, cDir) :: rest =>
          rw [hopen] at h
          dsimp only at h
          split at h
          · next hgoal =>
              cases h
              exact ⟨hinv, by simp [hgoal.1, hgoal.2]⟩
          · split at h
            · exact ih _ _ _ _ _ h hinv
            · refine ih _ _ _ _ _ h ?_
              exact foldl_neighborStep_inv env cx cy g cDir (List.range 8)
                (fun i hi => List.mem_range.mp hi) _ hinv

theorem buildRaw_spec (came : List ((ℤ × ℤ) × (ℤ × ℤ))) (start : ℤ × ℤ) :
    ∀ (fuel : ℕ) (pos : ℤ × ℤ) (raw : List (ℤ × ℤ)),
    buildRaw came start fuel pos = some raw →
    raw ≠ [] ∧ raw.head? = some start ∧ raw.getLast? = some pos ∧
    List.Chain' (fun a b => lookupA came b = some a) raw := by
  intro fuel
  induction fuel with
  | zero =>
      intro pos raw h
      unfold buildRaw at h
      split at h
      · next heq =>
          cases h
          subst heq
          simp
      · simp at h
  | succ n ih =>
      intro pos raw h
      unfold buildRaw at h
      split at h
      · next heq =>
          cases h
          subst heq
          simp
      · match hlk : lookupA came pos with
        | none => rw [hlk] at h; simp at h
        | some par =>
            rw [hlk] at h
            dsimp only [Option.map] at h
            match hrec : buildRaw came start n par with
            | none => rw [hrec] at h; simp at h
            | some l =>
                rw [hrec] at h
                cases h
                obtain ⟨hne, hhead, hlast, hchain⟩ := ih par l hrec
                refine ⟨by simp, ?_, ?_, ?_⟩
                · rcases l with _ | ⟨x, xs⟩
                  · exact absurd rfl hne
                  · simpa using hhead
                · simp
                · rw [List.chain'_append]
                  refine ⟨hchain, List.chain'_singleton _, ?_⟩
                  intro x hx y hy
                  rw [hlast] at hx
                  cases hx
                  simp only [List.head?_cons, Option.mem_def, Option.some.injEq] at hy
                  subst hy
                  exact hlk

/-- C3: every raw grid path returned by `astar_search`'s reconstruction
consists of unit steps in the 8 search directions, and no diagonal step
has a blocked side cell: for a step from (x, y) to (x+dx, y+dy) with
dx ≠ 0 and dy ≠ 0, both (x+dx, y) and (x, y+dy) are unblocked, where a
cell c is blocked iff c lies in the search's blocked ∪ extra sets and not
in its allowed set. -/
theorem astar_no_corner_cut (m : ObstacleMapM) (sx sy ex ey tr : ℚ)
    (allowed extra : Finset (ℤ × ℤ)) (raw : List (ℤ × ℤ))
    (h : astarSearchRaw m sx sy ex ey tr allowed extra = some raw) :
    List.Chain' (stepOk (astarSetup m sx sy ex ey tr allowed extra).1) raw := by
  unfold astarSearchRaw at h
  dsimp only at h
  match hout : astarOutcome m sx sy ex ey tr allowed extra with
  | .noPath p => rw [hout] at h; simp at h
  | .found came pos p =>
      rw [hout] at h
      dsimp only at h
      unfold astarOutcome at hout
      have hinv : cameInv (astarSetup m sx sy ex ey tr allowed extra).1 came := by
        have hinit : cameInv (astarSetup m sx sy ex ey tr allowed extra).1
            (astarInitState (astarSetup m sx sy ex ey tr allowed extra).1
              (astarSetup m sx sy ex ey tr allowed extra).2).cameFrom := by
          intro b a hb
          simp [astarInitState, lookupA] at hb
        exact (astarLoop_found_inv _ _ _ _ _ _ _ hout hinit).1
      have hspec := buildRaw_spec came
        (astarSetup m sx sy ex ey tr allowed extra).2 (came.length + 1) pos raw h
      exact List.Chain'.imp (fun a b hab => hinv b a hab) hspec.2.2.2

/-- C3 witness: on an obstacle-free 2×2 board the search returns the raw
diagonal path [(0,0), (1,1)], and the corner-cut property holds along
it. -/
theorem astar_no_corner_cut_witness :
    astarSearchRaw ⟨1/40, ∅, 0, 0, 1, 1⟩ 0 0 (1/40) (1/40) 0 ∅ ∅ =
      some [(0, 0), (1, 1)] ∧
    List.Chain' (stepOk (astarSetup ⟨1/40, ∅, 0, 0, 1, 1⟩ 0 0 (1/40) (1/40) 0 ∅ ∅).1)
      [(0, 0), (1, 1)] :=
  ⟨by with_unfolding_all rfl,
   astar_no_corner_cut ⟨1/40, ∅, 0, 0, 1, 1⟩ 0 0 (1/40) (1/40) 0 ∅ ∅
     [(0, 0), (1, 1)] (by with_unfolding_all rfl)⟩

/-! ## Claim C1: endpoint preservation -/

/-- Banker's rounding moves a value by at most 1/2. -/
theorem pyRound_abs_le_half (q : ℚ) : |(pyRound q : ℚ) - q| ≤ 1/2 := by
  unfold pyRound
  dsimp only
  have h0 : (0:ℚ) ≤ q - ⌊q⌋ := by
    have := Int.floor_le q
    linarith
  have h1 : q - ⌊q⌋ < 1 := by
    have := Int.lt_floor_add_one q
    linarith
  rw [abs_le]
  split
  · next hlt =>
      constructor <;> push_cast <;> linarith
  · split
    · next hgt =>
        constructor <;> push_cast <;> linarith
    · next hnl hng =>
        have hhalf : q - ⌊q⌋ = 1/2 := le_antisymm (not_lt.mp hng) (not_lt.mp hnl)
        split <;> constructor <;> push_cast <;> linarith

theorem simplifyGo_head :
    ∀ (rem : List (ℤ × ℤ)) (prev : ℤ × ℤ) (acc : List (ℤ × ℤ)),
    acc ≠ [] → (simplifyGo prev acc rem).head? = acc.getLast? := by
  intro rem
  induction rem with
  | nil =>
      intro prev acc h
      simp [simplifyGo, List.head?_reverse]
  | cons c rest ih =>
      cases rest with
      | nil =>
          intro prev acc h
          rcases acc with _ | ⟨a0, as⟩
          · exact absurd rfl h
          · cases as with
            | nil => simp [simplifyGo, List.head?_reverse]
            | cons b bs =>
                show ((c :: a0 :: b :: bs).reverse).head? = (a0 :: b :: bs).getLast?
                rw [List.head?_reverse, List.getLast?_cons_cons]
      | cons nxt rest2 =>
          intro prev acc h
          unfold simplifyGo
          dsimp only
          split
          · rcases acc with _ | ⟨a0, as⟩
            · exact absurd rfl h
            · rw [ih c (c :: a0 :: as) (by simp)]
              exact List.getLast?_cons_cons
          · exact ih prev acc h

theorem simplifyGo_last :
    ∀ (rem : List (ℤ × ℤ)) (prev : ℤ × ℤ) (acc : List (ℤ × ℤ)),
    rem ≠ [] → (simplifyGo prev acc rem).getLast? = rem.getLast? := by
  intro rem
  induction rem with
  | nil => intro _ _ h; exact absurd rfl h
  | cons c rest ih =>
      cases rest with
      | nil =>
          intro prev acc _
          simp [simplifyGo, List.getLast?_reverse]
      | cons nxt rest2 =>
          intro prev acc _
          unfold simplifyGo
          dsimp only
          split
          · rw [ih c (c :: acc) (by simp)]
            exact List.getLast?_cons_cons.symm
          · rw [ih prev acc (by simp)]
            exact List.getLast?_cons_cons.symm

theorem simplifyRaw_head (raw : List (ℤ × ℤ)) :
    (simplifyRaw raw).head? = raw.head? := by
  unfold simplifyRaw
  split
  · rfl
  · next hlen =>
      match raw with
      | [] => rfl
      | p0 :: rest =>
          rw [simplifyGo_head rest p0 [p0] (by simp)]
          rfl

theorem simplifyRaw_last (raw : List (ℤ × ℤ)) :
    (simplifyRaw raw).getLast? = raw.getLast? := by
  unfold simplifyRaw
  split
  · rfl
  · next hlen =>
      match raw with
      | [] => rfl
      | p0 :: rest =>
          cases rest with
          | nil => simp at hlen
          | cons r1 rest2 =>
              rw [simplifyGo_last (r1 :: rest2) p0 [p0] (by simp)]
              simp

/-- The `_route_segment` loop only ever appends to the accumulated path. -/
theorem routeSegmentLoop_path_ext (r : WRouter) (e : Point) (netId : Option ℤ) :
    ∀ (fuel : ℕ) (st : SegState),
    ∃ ext, (routeSegmentLoop r e netId fuel st).path = st.path ++ ext := by
  intro fuel
  induction fuel with
  | zero => intro st; exact ⟨[], by simp [routeSegmentLoop]⟩
  | succ n ih =>
      intro st
      unfold routeSegmentLoop
      dsimp only
      split
      · exact ⟨[e], rfl⟩
      · split
        · split
          · next escape _ =>
              obtain ⟨ext, hext⟩ := ih { st with
                path := st.path ++ [escape], current := escape,
                iterations := st.iterations + 1 }
              exact ⟨[escape] ++ ext, by rw [hext]; simp⟩
          · exact ⟨[], by simp⟩
        · split
          · exact ⟨[], by simp⟩
          · next best _ =>
              split
              · exact ⟨[], by simp⟩
              · split
                · exact ⟨best, rfl⟩
                · obtain ⟨ext, hext⟩ := ih _
                  exact ⟨best ++ ext, by rw [hext]; simp⟩

/-- A successful `_route_segment` loop run ends exactly at the goal and
has strictly grown the path. -/
theorem routeSegmentLoop_success_spec (r : WRouter) (e : Point) (netId : Option ℤ) :
    ∀ (fuel : ℕ) (st : SegState),
    (routeSegmentLoop r e netId fuel st).success = true →
    (routeSegmentLoop r e netId fuel st).path.getLast? = some e ∧
    st.path.length + 1 ≤ (routeSegmentLoop r e netId fuel st).path.length := by
  intro fuel
  induction fuel with
  | zero => intro st h; simp [routeSegmentLoop] at h
  | succ n ih =>
      intro st
      unfold routeSegmentLoop
      dsimp only
      split
      · intro _
        constructor
        · exact List.getLast?_concat _
        · simp
      · split
        · split
          · next escape _ =>
              intro h
              have hrec := ih { st with
                path := st.path ++ [escape], current := escape,
                iterations := st.iterations + 1 } h
              refine ⟨hrec.1, ?_⟩
              have := hrec.2
              simp only [List.length_append, List.length_singleton] at this
              omega
          · intro h; simp at h
        · split
          · intro h; simp at h
          · next best _ =>
              split
              · intro h; simp at h
              · split
                · intro h; simp at h
                · next hempty _ =>
                    intro h
                    have hrec := ih _ h
                    refine ⟨hrec.1, ?_⟩
                    have hlen := hrec.2
                    have hbest : best ≠ [] := by
                      intro hcontr
                      rw [hcontr] at hempty
                      simp at hempty
                    have : 1 ≤ best.length := List.length_pos.mpr hbest
                    simp only [List.length_append] at hlen
                    omega

/-- `_route_segment` always starts its path at the start point. -/
theorem route_segment_head (r : WRouter) (s e : Point) (netId : Option ℤ) :
    (route_segment r s e netId).path.head? = some s := by
  obtain ⟨ext, hext⟩ := routeSegmentLoop_path_ext r e netId r.maxIterations
    { path := [s], current := s, iterations := 0, visitedHulls := [],
      bestDistSq := (e.x - s.x)^2 + (e.y - s.y)^2, stall := 0 }
  unfold route_segment
  rw [hext]
  simp

/-- A successful `_route_segment` ends at the goal with at least two
points. -/
theorem route_segment_success_spec (r : WRouter) (s e : Point)
    (netId : Option ℤ) (h : (route_segment r s e netId).success = true) :
    (route_segment r s e netId).path.getLast? = some e ∧
    2 ≤ (route_segment r s e netId).path.length := by
  have := routeSegmentLoop_success_spec r e netId r.maxIterations
    { path := [s], current := s, iterations := 0, visitedHulls := [],
      bestDistSq := (e.x - s.x)^2 + (e.y - s.y)^2, stall := 0 } h
  exact ⟨this.1, by simpa using this.2⟩

/-- Each companion-loop pass ends the accumulated path at its target. -/
theorem companionStep_last (r : WRouter) (netId : Option ℤ)
    (acc : List Point × Point × ℕ) (target : Point) :
    (companionStep r netId acc target).1.getLast? = some target := by
  unfold companionStep
  dsimp only
  split
  · next hcond =>
      have hsucc : (route_segment r acc.2.1 target netId).success = true :=
        (Bool.and_eq_true _ _ |>.mp hcond).1
      have hlen : 1 < (route_segment r acc.2.1 target netId).path.length := by
        have := (Bool.and_eq_true _ _ |>.mp hcond).2
        exact of_decide_eq_true this
      have hlast := (route_segment_success_spec r acc.2.1 target netId hsucc).1
      match hpath : (route_segment r acc.2.1 target netId).path with
      | [] => rw [hpath] at hlen; simp at hlen
      | [a] => rw [hpath] at hlen; simp at hlen
      | a :: b :: rest =>
          rw [hpath] at hlast
          dsimp only
          rw [show (a :: b :: rest).tail = b :: rest from rfl,
            List.getLast?_append_of_ne_nil _ (by simp)]
          rw [List.getLast?_cons_cons] at hlast
          exact hlast
  · dsimp only
    rw [List.getLast?_append_of_ne_nil _ (by simp)]
    rfl

/-- Companion-loop passes preserve the head of the accumulated path. -/
theorem companionStep_head (r : WRouter) (netId : Option ℤ)
    (acc : List Point × Point × ℕ) (target : Point) (h : acc.1 ≠ []) :
    (companionStep r netId acc target).1.head? = acc.1.head? ∧
    (companionStep r netId acc target).1 ≠ [] := by
  unfold companionStep
  dsimp only
  match hacc : acc.1 with
  | [] => exact absurd hacc h
  | a :: rest =>
      split
      · constructor
        · simp
        · simp
      · constructor
        · simp
        · simp

theorem companionFold_head (r : WRouter) (netId : Option ℤ) :
    ∀ (ts : List Point) (acc : List Point × Point × ℕ), acc.1 ≠ [] →
    (ts.foldl (companionStep r netId) acc).1.head? = acc.1.head? ∧
    (ts.foldl (companionStep r netId) acc).1 ≠ [] := by
  intro ts
  induction ts with
  | nil => intro acc h; exact ⟨rfl, h⟩
  | cons t rest ih =>
      intro acc h
      simp only [List.foldl_cons]
      have hstep := companionStep_head r netId acc t h
      have := ih (companionStep r netId acc t) hstep.2
      exact ⟨this.1.trans hstep.1, this.2⟩

/-- `WalkaroundRouter.route` preserves the requested endpoints exactly on
every successful run (companion or plain). -/
theorem wr_route_endpoints (r : WRouter) (s e : Point) (netId : Option ℤ)
    (h : (wr_route r s e netId).success = true) :
    (wr_route r s e netId).path.head? = some s ∧
    (wr_route r s e netId).path.getLast? = some e := by
  unfold wr_route at h ⊢
  split at h
  · next hc =>
      rw [if_pos hc]
      dsimp only
      constructor
      · have := companionFold_head r netId
          (generate_offset_waypoints r s ++ [e]) ([s], s, 0) (by simp)
        simpa using this.1
      · rw [List.foldl_append]
        simp only [List.foldl_cons, List.foldl_nil]
        exact companionStep_last r netId _ e
  · next hc =>
      rw [if_neg hc]
      exact ⟨route_segment_head r s e netId,
        (route_segment_success_spec r s e netId h).1⟩

@[simp] theorem Point.sub_x (a b : Point) : (a - b).x = a.x - b.x := rfl

@[simp] theorem Point.sub_y (a b : Point) : (a - b).y = a.y - b.y := rfl

theorem Point.distSq_comm (a b : Point) : Point.distSq a b = Point.distSq b a := by
  unfold Point.distSq Point.lengthSq
  simp only [Point.sub_x, Point.sub_y]
  ring

theorem removeDupGo_head (eps : ℚ) :
    ∀ (rest : List Point) (lk : Point) (acc : List Point), acc ≠ [] →
    (removeDupGo eps lk acc rest).head? = acc.getLast? := by
  intro rest
  induction rest with
  | nil =>
      intro lk acc h
      simp [removeDupGo, List.head?_reverse]
  | cons p rest2 ih =>
      cases rest2 with
      | nil =>
          intro lk acc h
          rcases acc with _ | ⟨a0, as⟩
          · exact absurd rfl h
          · unfold removeDupGo
            split
            · cases as with
              | nil => simp [List.head?_reverse]
              | cons b bs =>
                  rw [List.head?_reverse, List.getLast?_cons_cons]
            · rw [List.head?_reverse]
      | cons q rest3 =>
          intro lk acc h
          unfold removeDupGo
          split
          · rcases acc with _ | ⟨a0, as⟩
            · exact absurd rfl h
            · rw [ih p (p :: a0 :: as) (by simp)]
              exact List.getLast?_cons_cons
          · exact ih lk acc h

theorem removeDupGo_last (eps : ℚ) :
    ∀ (rest : List Point) (lk : Point) (acc : List Point),
    acc.head? = some lk →
    ∃ q, (removeDupGo eps lk acc rest).getLast? = some q ∧
      Point.distSq q ((lk :: rest).getLastD ⟨0, 0⟩) ≤ (1/1000)^2 := by
  intro rest
  induction rest with
  | nil =>
      intro lk acc h
      refine ⟨lk, ?_, ?_⟩
      · rw [show removeDupGo eps lk acc [] = acc.reverse from rfl,
          List.getLast?_reverse, h]
      · rw [show ((lk :: []).getLastD ⟨0, 0⟩) = lk from rfl,
          show Point.distSq lk lk = 0 by
            unfold Point.distSq Point.lengthSq; simp]
        positivity
  | cons p rest2 ih =>
      cases rest2 with
      | nil =>
          intro lk acc h
          unfold removeDupGo
          split
          · next hfar =>
              refine ⟨p, ?_, ?_⟩
              · rw [List.getLast?_reverse]
                rfl
              · rw [show ((lk :: [p]).getLastD ⟨0, 0⟩) = p from rfl,
                  show Point.distSq p p = 0 by
                    unfold Point.distSq Point.lengthSq; simp]
                positivity
          · next hnear =>
              refine ⟨lk, ?_, ?_⟩
              · rw [List.getLast?_reverse, h]
              · rw [show ((lk :: [p]).getLastD ⟨0, 0⟩) = p from rfl,
                  Point.distSq_comm]
                simpa using not_lt.mp hnear
      | cons q rest3 =>
          intro lk acc h
          unfold removeDupGo
          split
          · obtain ⟨w, hw1, hw2⟩ := ih p (p :: acc) (by simp)
            exact ⟨w, hw1, hw2⟩
          · obtain ⟨w, hw1, hw2⟩ := ih lk acc h
            exact ⟨w, hw1, hw2⟩

/-- `_remove_duplicates` keeps the first point exactly and ends within
1 µm of the original last point. -/
theorem remove_duplicates_spec (pts : List Point) (eps : ℚ) (h : pts ≠ []) :
    (remove_duplicates pts eps).head? = pts.head? ∧
    (2 ≤ pts.length →
      ∃ q, (remove_duplicates pts eps).getLast? = some q ∧
        Point.distSq q (pts.getLastD ⟨0, 0⟩) ≤ (1/1000)^2) := by
  match pts with
  | [] => exact absurd rfl h
  | [p] =>
      constructor
      · rfl
      · intro hlen
        simp at hlen
  | p0 :: p1 :: rest =>
      have hhead : (removeDupGo eps p0 [p0] (p1 :: rest)).head? = some p0 :=
        removeDupGo_head eps (p1 :: rest) p0 [p0] (by simp)
      have hlast := removeDupGo_last eps (p1 :: rest) p0 [p0] rfl
      have hne : removeDupGo eps p0 [p0] (p1 :: rest) ≠ [] := by
        intro hc
        rw [hc] at hhead
        simp at hhead
      constructor
      · show (if (removeDupGo eps p0 [p0] (p1 :: rest)).length = 1 ∧
            (p0 :: p1 :: rest).length > 1 then
            removeDupGo eps p0 [p0] (p1 :: rest) ++
              [(p0 :: p1 :: rest).getLastD ⟨0, 0⟩]
          else removeDupGo eps p0 [p0] (p1 :: rest)).head? =
          (p0 :: p1 :: rest).head?
        split
        · rw [List.head?_append_of_ne_nil _ hne, hhead]
          rfl
        · rw [hhead]
          rfl
      · intro _
        show ∃ q, (if (removeDupGo eps p0 [p0] (p1 :: rest)).length = 1 ∧
            (p0 :: p1 :: rest).length > 1 then
            removeDupGo eps p0 [p0] (p1 :: rest) ++
              [(p0 :: p1 :: rest).getLastD ⟨0, 0⟩]
          else removeDupGo eps p0 [p0] (p1 :: rest)).getLast? = some q ∧
          Point.distSq q ((p0 :: p1 :: rest).getLastD ⟨0, 0⟩) ≤ (1/1000)^2
        split
        · refine ⟨(p0 :: p1 :: rest).getLastD ⟨0, 0⟩, ?_, ?_⟩
          · rw [List.getLast?_append_of_ne_nil _ (by simp)]
            rfl
          · rw [show Point.distSq ((p0 :: p1 :: rest).getLastD ⟨0, 0⟩)
                ((p0 :: p1 :: rest).getLastD ⟨0, 0⟩) = 0 by
              unfold Point.distSq Point.lengthSq; simp]
            positivity
        · exact hlast

/-- The raw path of a successful search run starts at the (rounded) start
cell and ends at the goal cell. -/
theorem astarSearchRaw_spec (m : ObstacleMapM) (sx sy ex ey tr : ℚ)
    (allowed extra : Finset (ℤ × ℤ)) (raw : List (ℤ × ℤ))
    (h : astarSearchRaw m sx sy ex ey tr allowed extra = some raw) :
    raw ≠ [] ∧
    raw.head? = some (astarSetup m sx sy ex ey tr allowed extra).2 ∧
    raw.getLast? = some ((astarSetup m sx sy ex ey tr allowed extra).1.endGx,
      (astarSetup m sx sy ex ey tr allowed extra).1.endGy) := by
  unfold astarSearchRaw at h
  dsimp only at h
  match hout : astarOutcome m sx sy ex ey tr allowed extra with
  | .noPath p => rw [hout] at h; simp at h
  | .found came pos p =>
      rw [hout] at h
      dsimp only at h
      have hspec := buildRaw_spec came
        (astarSetup m sx sy ex ey tr allowed extra).2 (came.length + 1) pos raw h
      have hpos : pos = ((astarSetup m sx sy ex ey tr allowed extra).1.endGx,
          (astarSetup m sx sy ex ey tr allowed extra).1.endGy) := by
        unfold astarOutcome at hout
        have hinit : cameInv (astarSetup m sx sy ex ey tr allowed extra).1
            (astarInitState (astarSetup m sx sy ex ey tr allowed extra).1
              (astarSetup m sx sy ex ey tr allowed extra).2).cameFrom := by
          intro b a hb
          simp [astarInitState, lookupA] at hb
        exact (astarLoop_found_inv _ _ _ _ _ _ _ hout hinit).2
      exact ⟨hspec.1, hspec.2.1, by rw [hspec.2.2.1, hpos]⟩

/-- `astar_search` returns exactly the grid-snapped endpoints on success. -/
theorem astar_search_endpoints (m : ObstacleMapM) (sx sy ex ey tr : ℚ)
    (allowed extra : Finset (ℤ × ℤ)) (raw : List (ℤ × ℤ))
    (h : astarSearchRaw m sx sy ex ey tr allowed extra = some raw) :
    (astar_search m sx sy ex ey tr allowed extra).head? =
      some ((pyRound (sx / m.resolution) : ℚ) * m.resolution,
            (pyRound (sy / m.resolution) : ℚ) * m.resolution) ∧
    (astar_search m sx sy ex ey tr allowed extra).getLast? =
      some ((pyRound (ex / m.resolution) : ℚ) * m.resolution,
            (pyRound (ey / m.resolution) : ℚ) * m.resolution) := by
  obtain ⟨hne, hh, hl⟩ := astarSearchRaw_spec m sx sy ex ey tr allowed extra raw h
  unfold astar_search
  rw [h]
  dsimp only
  constructor
  · rw [List.head?_map, simplifyRaw_head, hh]
    rfl
  · rw [List.getLast?_map, simplifyRaw_last, hl]
    rfl

/-- Snapping to the grid moves a coordinate by at most half a cell. -/
theorem round_scale_close (x res : ℚ) (hres : 0 < res) :
    |((pyRound (x / res) : ℚ) * res) - x| ≤ res / 2 := by
  have hb := pyRound_abs_le_half (x / res)
  have key : (pyRound (x / res) : ℚ) * res - x =
      ((pyRound (x / res) : ℚ) - x / res) * res := by
    field_simp
  rw [key, abs_mul, abs_of_pos hres]
  calc |(pyRound (x / res) : ℚ) - x / res| * res
      ≤ (1/2) * res := mul_le_mul_of_nonneg_right hb (le_of_lt hres)
    _ = res / 2 := by ring

/-- C1 (amended): endpoint preservation per backend.  (1) Successful
walkaround routes (companion or plain) start exactly at the requested
start and end exactly at the requested end.  (2) The optimizer's
duplicate-removal pass keeps the first point exactly and ends within 1 µm
of the original last point.  (3) The grid A* backend returns as first and
last points the requested endpoints snapped to the nearest grid-cell
centres; each snapped coordinate is within half a grid cell (12.5 µm at
the 0.025 mm default resolution) of the requested one — not within 1 µm
in general. -/
theorem endpoint_preservation_amended :
    (∀ (r : WRouter) (s e : Point) (netId : Option ℤ),
      (wr_route r s e netId).success = true →
      (wr_route r s e netId).path.head? = some s ∧
      (wr_route r s e netId).path.getLast? = some e) ∧
    (∀ (pts : List Point) (eps : ℚ), pts ≠ [] →
      (remove_duplicates pts eps).head? = pts.head? ∧
      (2 ≤ pts.length →
        ∃ q, (remove_duplicates pts eps).getLast? = some q ∧
          Point.distSq q (pts.getLastD ⟨0, 0⟩) ≤ (1/1000)^2)) ∧
    (∀ (m : ObstacleMapM) (sx sy ex ey tr : ℚ)
       (allowed extra : Finset (ℤ × ℤ)) (raw : List (ℤ × ℤ)),
      0 < m.resolution →
      astarSearchRaw m sx sy ex ey tr allowed extra = some raw →
      (astar_search m sx sy ex ey tr allowed extra).head? =
        some ((pyRound (sx / m.resolution) : ℚ) * m.resolution,
              (pyRound (sy / m.resolution) : ℚ) * m.resolution) ∧
      (astar_search m sx sy ex ey tr allowed extra).getLast? =
        some ((pyRound (ex / m.resolution) : ℚ) * m.resolution,
              (pyRound (ey / m.resolution) : ℚ) * m.resolution) ∧
      |((pyRound (sx / m.resolution) : ℚ) * m.resolution) - sx| ≤ m.resolution / 2 ∧
      |((pyRound (sy / m.resolution) : ℚ) * m.resolution) - sy| ≤ m.resolution / 2 ∧
      |((pyRound (ex / m.resolution) : ℚ) * m.resolution) - ex| ≤ m.resolution / 2 ∧
      |((pyRound (ey / m.resolution) : ℚ) * m.resolution) - ey| ≤ m.resolution / 2) := by
  refine ⟨wr_route_endpoints, remove_duplicates_spec, ?_⟩
  intro m sx sy ex ey tr allowed extra raw hres h
  obtain ⟨h1, h2⟩ := astar_search_endpoints m sx sy ex ey tr allowed extra raw h
  exact ⟨h1, h2, round_scale_close sx _ hres, round_scale_close sy _ hres,
    round_scale_close ex _ hres, round_scale_close ey _ hres⟩

/-- C1 counterexample to the claim as stated: a grid A* request starting
at x = 0.01 mm (off-grid) returns a path whose first point is x = 0 —
10 µm from the requested start, an order of magnitude beyond the claimed
1 µm bound. -/
theorem astar_endpoint_counterexample :
    astar_search ⟨1/40, ∅, 0, 0, 1, 0⟩ (1/100) 0 (1/40) 0 0 ∅ ∅ =
      [(0, 0), (1/40, 0)] ∧
    |(0 : ℚ) - 1/100| > 1/1000 := by
  constructor
  · with_unfolding_all rfl
  · rw [show ((0 : ℚ) - 1/100) = -(1/100) by norm_num, abs_neg,
      abs_of_nonneg (by norm_num : (0:ℚ) ≤ 1/100)]
    norm_num

/-- C1 witness: all three parts of the amended claim instantiated — a
successful plain walkaround route on an empty board, a two-point
duplicate-removal run, and the concrete A* run of the counterexample. -/
theorem endpoint_preservation_amended_witness :
    ((wr_route { hullMap := emptyHullMap, traceWidth := 1/4 }
        ⟨0, 0⟩ ⟨1, 0⟩ none).success = true ∧
     (wr_route { hullMap := emptyHullMap, traceWidth := 1/4 }
        ⟨0, 0⟩ ⟨1, 0⟩ none).path.head? = some ⟨0, 0⟩ ∧
     (wr_route { hullMap := emptyHullMap, traceWidth := 1/4 }
        ⟨0, 0⟩ ⟨1, 0⟩ none).path.getLast? = some ⟨1, 0⟩) ∧
    (([⟨0, 0⟩, ⟨1, 0⟩] : List Point) ≠ [] ∧
     (remove_duplicates [⟨0, 0⟩, ⟨1, 0⟩] (1/20)).head? =
       ([⟨0, 0⟩, ⟨1, 0⟩] : List Point).head? ∧
     (∃ q, (remove_duplicates [⟨0, 0⟩, ⟨1, 0⟩] (1/20)).getLast? = some q ∧
       Point.distSq q (([⟨0, 0⟩, ⟨1, 0⟩] : List Point).getLastD ⟨0, 0⟩) ≤
         (1/1000)^2)) ∧
    ((0 : ℚ) < 1/40 ∧
     astarSearchRaw ⟨1/40, ∅, 0, 0, 1, 0⟩ (1/100) 0 (1/40) 0 0 ∅ ∅ =
       some [(0, 0), (1, 0)] ∧
     (astar_search ⟨1/40, ∅, 0, 0, 1, 0⟩ (1/100) 0 (1/40) 0 0 ∅ ∅).getLast? =
       some ((pyRound ((1/40) / (1/40)) : ℚ) * (1/40),
             (pyRound ((0 : ℚ) / (1/40)) : ℚ) * (1/40)) ∧
     |((pyRound ((1/100) / (1/40)) : ℚ) * (1/40)) - 1/100| ≤ (1/40) / 2) := by
  have hsucc : (wr_route { hullMap := emptyHullMap, traceWidth := 1/4 }
      ⟨0, 0⟩ ⟨1, 0⟩ none).success = true := by with_unfolding_all rfl
  have hraw : astarSearchRaw ⟨1/40, ∅, 0, 0, 1, 0⟩ (1/100) 0 (1/40) 0 0 ∅ ∅ =
      some [(0, 0), (1, 0)] := by with_unfolding_all rfl
  have h1 := endpoint_preservation_amended.1
    { hullMap := emptyHullMap, traceWidth := 1/4 } ⟨0, 0⟩ ⟨1, 0⟩ none hsucc
  have h2 := endpoint_preservation_amended.2.1 [⟨0, 0⟩, ⟨1, 0⟩] (1/20) (by simp)
  have h3 := endpoint_preservation_amended.2.2 ⟨1/40, ∅, 0, 0, 1, 0⟩
    (1/100) 0 (1/40) 0 0 ∅ ∅ [(0, 0), (1, 0)] (by norm_num) hraw
  exact ⟨⟨hsucc, h1.1, h1.2⟩, ⟨by simp, h2.1, h2.2 (by simp)⟩,
    ⟨by norm_num, hraw, h3.2.1, h3.2.2.1⟩⟩

/-! ## Claim C7: pending-hull cleanup on every exit -/

/-- The hull-map state after inserting pending hulls `new` on top of `m`:
every field that the cleanup claim concerns, plus freshness bounds for the
inserted identity tags. -/
def Extends (m m' : HullMap) (new : List IndexedHull) : Prop :=
  m'.clearance = m.clearance ∧ m'.traceClearance = m.traceClearance ∧
  m'.cellSize = m.cellSize ∧
  m'.hulls = m.hulls ++ new ∧ m'.pendingHulls = m.pendingHulls ++ new ∧
  m'.grid = new.foldl (addToGrid m.cellSize) m.grid ∧
  m.nextId ≤ m'.nextId ∧ ∀ h ∈ new, m.nextId ≤ h.hid ∧ h.hid < m'.nextId

theorem extends_refl (m : HullMap) : Extends m m [] := by
  simp [Extends]

theorem extends_trans {m1 m2 m3 : HullMap} {a b : List IndexedHull}
    (hab : Extends m1 m2 a) (hbc : Extends m2 m3 b) :
    Extends m1 m3 (a ++ b) := by
  obtain ⟨c1, t1, s1, h1, p1, g1, n1, f1⟩ := hab
  obtain ⟨c2, t2, s2, h2, p2, g2, n2, f2⟩ := hbc
  refine ⟨by rw [c2, c1], by rw [t2, t1], by rw [s2, s1], ?_, ?_, ?_, ?_, ?_⟩
  · rw [h2, h1, List.append_assoc]
  · rw [p2, p1, List.append_assoc]
  · rw [g2, g1, s1, List.foldl_append]
  · exact le_trans n1 n2
  · intro h hmem
    rcases List.mem_append.mp hmem with ha | hb
    · exact ⟨(f1 h ha).1, lt_of_lt_of_le (f1 h ha).2 n2⟩
    · exact ⟨le_trans n1 (f2 h hb).1, (f2 h hb).2⟩

theorem addPendingSeg_extends (m : HullMap) (w : ℚ) (nid : Option ℤ)
    (se : (ℚ × ℚ) × (ℚ × ℚ)) :
    Extends m (addPendingSeg m w nid se) [mkPendingHull m w nid se] := by
  refine ⟨rfl, rfl, rfl, rfl, rfl, rfl, Nat.le_succ _, ?_⟩
  intro h hmem
  rcases List.mem_singleton.mp hmem with rfl
  exact ⟨le_refl _, Nat.lt_succ_self _⟩

theorem foldl_addPendingSeg_extends (w : ℚ) (nid : Option ℤ) :
    ∀ (l : List ((ℚ × ℚ) × (ℚ × ℚ))) (m : HullMap),
    ∃ new, Extends m (l.foldl (fun acc se => addPendingSeg acc w nid se) m) new := by
  intro l
  induction l with
  | nil => intro m; exact ⟨[], extends_refl m⟩
  | cons se rest ih =>
      intro m
      simp only [List.foldl_cons]
      obtain ⟨new, hnew⟩ := ih (addPendingSeg m w nid se)
      exact ⟨_, extends_trans (addPendingSeg_extends m w nid se) hnew⟩

theorem add_pending_trace_extends (m : HullMap) (segs : List (ℚ × ℚ))
    (w : ℚ) (nid : Option ℤ) :
    ∃ new, Extends m (add_pending_trace m segs w nid) new := by
  unfold add_pending_trace
  split
  · exact ⟨[], extends_refl m⟩
  · exact foldl_addPendingSeg_extends w nid _ m

theorem addPendingTraces_extends :
    ∀ (ts : List PendingTrace) (m : HullMap),
    ∃ new, Extends m (addPendingTraces m ts) new := by
  intro ts
  induction ts with
  | nil => intro m; exact ⟨[], extends_refl m⟩
  | cons t rest ih =>
      intro m
      simp only [addPendingTraces, List.foldl_cons]
      obtain ⟨a, ha⟩ := add_pending_trace_extends m t.segments t.width t.netId
      obtain ⟨b, hb⟩ := ih (add_pending_trace m t.segments t.width t.netId)
      exact ⟨a ++ b, extends_trans ha (by simpa [addPendingTraces] using hb)⟩

/-- `clear_pending_hulls` undoes any `Extends`-shaped insertion on a
well-formed map: the permanent hulls, the grid and the (empty) pending
list are restored exactly. -/
theorem clear_pending_restores {m m' : HullMap} {new : List IndexedHull}
    (hpend : m.pendingHulls = [])
    (hfresh : ∀ h ∈ m.hulls, h.hid < m.nextId)
    (hgrid : m.grid = buildGrid m.cellSize m.hulls)
    (hext : Extends m m' new) :
    (clear_pending_hulls m').pendingHulls = [] ∧
    (clear_pending_hulls m').hulls = m.hulls ∧
    (clear_pending_hulls m').grid = m.grid := by
  obtain ⟨c1, t1, s1, h1, p1, g1, n1, f1⟩ := hext
  have hp' : m'.pendingHulls = new := by rw [p1, hpend, List.nil_append]
  unfold clear_pending_hulls
  split
  · next hempty =>
      have hnew : new = [] := by
        rwa [hp', List.isEmpty_iff] at hempty
      subst hnew
      refine ⟨hp', by rw [h1, List.append_nil], ?_⟩
      rw [g1]
      simp
  · next hne =>
      have hfilter :
          m'.hulls.filter
            (fun h => !((m'.pendingHulls.map IndexedHull.hid).contains h.hid)) =
          m.hulls := by
        rw [h1, hp', List.filter_append]
        have hold : m.hulls.filter
            (fun h => !((new.map IndexedHull.hid).contains h.hid)) = m.hulls := by
          apply List.filter_eq_self.mpr
          intro h hmem
          have hnotmem : h.hid ∉ new.map IndexedHull.hid := by
            simp only [List.mem_map, not_exists, not_and]
            intro h' hmem' heq
            have hlt := hfresh h hmem
            have hge := (f1 h' hmem').1
            omega
          simpa [List.elem_eq_mem] using hnotmem
        have hnewpart : new.filter
            (fun h => !((new.map IndexedHull.hid).contains h.hid)) = [] := by
          apply List.filter_eq_nil_iff.mpr
          intro h hmem
          simpa [List.elem_eq_mem] using List.mem_map_of_mem IndexedHull.hid hmem
        rw [hold, hnewpart, List.append_nil]
      refine ⟨rfl, hfilter, ?_⟩
      show buildGrid m'.cellSize
        (m'.hulls.filter
          (fun h => !((m'.pendingHulls.map IndexedHull.hid).contains h.hid))) =
        m.grid
      rw [hfilter, s1, hgrid]

/-- C7: for every call to the walkaround route entry point
`_route_walkaround` — whose final hull-map state is the same whether the
body returns a path, reports failure, or raises (the cleanup sits in a
`finally` block) — the layer's hull map afterwards has an empty
pending-hull list, and its hull list and spatial grid hold exactly the
permanent hulls (and their grid placement) from before the call. -/
theorem route_walkaround_pending_cleanup (m : HullMap)
    (store : PendingTraceStore) (layer : String) (s e : Point) (width : ℚ)
    (netId : Option ℤ) (refP : Option (List (ℚ × ℚ))) (refS : Option ℚ)
    (hpend : m.pendingHulls = [])
    (hfresh : ∀ h ∈ m.hulls, h.hid < m.nextId)
    (hgrid : m.grid = buildGrid m.cellSize m.hulls) :
    ((route_walkaround m store layer s e width netId refP refS).2.pendingHulls
        = [] ∧
     (route_walkaround m store layer s e width netId refP refS).2.hulls
        = m.hulls ∧
     (route_walkaround m store layer s e width netId refP refS).2.grid
        = m.grid) := by
  obtain ⟨new, hext⟩ := addPendingTraces_extends
    ((get_traces_by_layer store layer).filter (fun t =>
      netId.isNone || decide (t.netId ≠ netId))) m
  exact clear_pending_restores hpend hfresh hgrid hext

/-- C7 witness: a concrete well-formed hull map (empty board) and a store
holding one pending trace on the routed layer; after the route call the
pending list is empty and hulls and grid are restored. -/
theorem route_walkaround_pending_cleanup_witness :
    ((route_walkaround emptyHullMap
        (add_trace (PendingTraceStore.init (1/40)) "t1" [(0, 0), (1, 0)]
          (1/4) "F.Cu" none)
        "F.Cu" ⟨0, 0⟩ ⟨1, 0⟩ (1/4) none none none).2.pendingHulls = [] ∧
     (route_walkaround emptyHullMap
        (add_trace (PendingTraceStore.init (1/40)) "t1" [(0, 0), (1, 0)]
          (1/4) "F.Cu" none)
        "F.Cu" ⟨0, 0⟩ ⟨1, 0⟩ (1/4) none none none).2.hulls = emptyHullMap.hulls ∧
     (route_walkaround emptyHullMap
        (add_trace (PendingTraceStore.init (1/40)) "t1" [(0, 0), (1, 0)]
          (1/4) "F.Cu" none)
        "F.Cu" ⟨0, 0⟩ ⟨1, 0⟩ (1/4) none none none).2.grid = emptyHullMap.grid) :=
  route_walkaround_pending_cleanup emptyHullMap _ "F.Cu" ⟨0, 0⟩ ⟨1, 0⟩ (1/4)
    none none none rfl (by intro h hmem; simp [emptyHullMap] at hmem) rfl

/-- C8: Pending-store round trip: for every pending trace X and clearance
value c, the sequence clear(); add_trace(X); remove_trace(X.id) succeeds,
leaves the store with no traces, and a subsequent
get_blocked_cells(X.layer, c) returns the same set as it would immediately
after the clear() — the empty set. -/
theorem pending_store_round_trip (s : PendingTraceStore) (X : PendingTrace)
    (c : ℚ) :
    let s1 := clearStore s
    let s2 := add_trace s1 X.id X.segments X.width X.layer X.netId
    let r := remove_trace s2 X.id
    r.1 = true ∧ r.2.traces = [] ∧
    (get_blocked_cells r.2 X.layer c).1 = (get_blocked_cells s1 X.layer c).1 ∧
    (get_blocked_cells r.2 X.layer c).1 = ∅ := by
  simp [clearStore, add_trace, remove_trace, get_blocked_cells,
        insertA, eraseA, lookupA]

/-- C9: Unknown trace id is not an error: when the id is absent,
`remove_trace` returns `false` and the store — trace map and every cached
per-layer blocked-cell set — is unchanged; when the id is present it
returns `true`. -/
theorem remove_trace_unknown_id (s : PendingTraceStore) (tid : String) :
    (lookupA s.traces tid = none → remove_trace s tid = (false, s)) ∧
    (∀ t, lookupA s.traces tid = some t → (remove_trace s tid).1 = true) := by
  constructor
  · intro h
    simp [remove_trace, h]
  · intro t h
    simp [remove_trace, h]

/-- C9 witness: concrete store where removing an absent id changes nothing
and removing a present id returns true. -/
theorem remove_trace_unknown_id_witness :
    (lookupA (PendingTraceStore.init (1/40)).traces "t1" = none ∧
      remove_trace (PendingTraceStore.init (1/40)) "t1" =
        (false, PendingTraceStore.init (1/40))) ∧
    ((lookupA (add_trace (PendingTraceStore.init (1/40)) "t1" [(0, 0), (1, 0)]
        (1/4) "F.Cu" none).traces "t1").isSome ∧
      (remove_trace (add_trace (PendingTraceStore.init (1/40)) "t1"
        [(0, 0), (1, 0)] (1/4) "F.Cu" none) "t1").1 = true) := by
  refine ⟨⟨by decide, (remove_trace_unknown_id _ "t1").1 (by decide)⟩, ?_⟩
  exact ⟨by rfl, (remove_trace_unknown_id _ "t1").2
    ⟨"t1", [(0, 0), (1, 0)], 1/4, "F.Cu", none⟩ (by rfl)⟩

/-- C10: the router facade cannot be constructed as shipped:
`router.py` imports `ElementAwareMap` from `obstacles.py`, which defines
only `ObstacleMap`, and `TraceRouter.__init__` passes a `storage_path`
keyword that `PendingTraceStore.__init__` does not accept. -/
theorem trace_router_not_constructible :
    traceRouterConstructible = false ∧
    obstaclesModuleClasses.contains "ElementAwareMap" = false ∧
    routerObstaclesImports.contains "ElementAwareMap" = true ∧
    pendingStoreInitParams.contains "storage_path" = false ∧
    traceRouterPendingStoreKwargs.contains "storage_path" = true := by
  decide

end SemiRoute
